import Mathlib

/-!
Verification development for the testastic structural-comparison engine.

The Go source is embedded shallowly:

* Go `any` values produced by `json.Unmarshal` (nil, bool, float64, string,
  `map[string]any`, `[]any`), plus the `Matcher` values substituted by the
  template parser and the Go integer scalars reachable through the public
  matcher API, become the inductive type `JSONValue`.  Go `float64` numbers
  are modelled as rationals (`ℚ`); JSON cannot produce NaN or infinities.
  Go maps become association lists with the textual field order; Go map
  iteration order is nondeterministic, so ordering facts about object
  iteration are determinised by the embedding.
* The compiled regular expression owned by a `regexMatcher` is an external
  collaborator (Go's `regexp` package); it is modelled as the decision
  function `String → Bool` the compiled pattern denotes.
* Fallible Go functions returning `(T, error)` become `Except String T`.
-/

set_option maxHeartbeats 1000000

namespace Testastic

/-! ## Character-level helpers for the Go `strings` functions used by the source -/

/-- Model of Go `strings.HasPrefix`. -/
def strStartsWith (s pre : String) : Bool :=
  pre.data.isPrefixOf s.data

/-- Model of Go `strings.HasSuffix`. -/
def strEndsWith (s suf : String) : Bool :=
  suf.data.isSuffixOf s.data

def splitOnDotAux : List Char → List Char → List String
  | [], acc => [String.mk acc.reverse]
  | c :: rest, acc =>
    if c = '.' then String.mk acc.reverse :: splitOnDotAux rest []
    else splitOnDotAux rest (c :: acc)

/-- Model of Go `strings.Split(path, ".")`: always returns at least one part. -/
def splitOnDot (s : String) : List String :=
  splitOnDotAux s.data []

def isGoSpaceTab (c : Char) : Bool :=
  c = ' ' || c = '\t'

/-- Model of the source's `trimSpace` (matchers.go): trims spaces and tabs
from both ends. -/
def trimSpace (s : String) : String :=
  String.mk (((s.data.dropWhile isGoSpaceTab).reverse.dropWhile isGoSpaceTab).reverse)

/-- Model of the source's `indexOf` (matchers.go); Go returns -1 when absent,
modelled as `none`. -/
def indexOf : List Char → Char → Option Nat
  | [], _ => none
  | c :: rest, target =>
    if c = target then some 0
    else (indexOf rest target).map (· + 1)

/-! ## Matcher (src/matchers.go) -/

/-- The closed set of matcher variants of src/matchers.go.  `regex` carries
the pattern text and the decision function denoted by the compiled pattern
(the compiled `*regexp.Regexp` is external); `oneOf` carries the quoted
string arguments collected by `extractQuotedArgs` (the only way the source
constructs it from templates). -/
inductive Matcher where
  | anyString
  | anyInt
  | anyFloat
  | anyBool
  | anyValue
  | ignore
  | regex (pattern : String) (re : String → Bool)
  | oneOf (values : List String)

/-- Truncation of a rational toward zero; this is what Go's
`float64(int64(v))` computes for values produced by JSON parsing
(T-division of numerator by denominator). -/
def ratTrunc (q : ℚ) : ℤ :=
  Int.tdiv q.num q.den

/-- The Go `any` universe the comparator walks: JSON values (nil, bool,
float64, string, map, slice), matchers substituted on the expected side,
and the Go integer scalars reachable through the matcher API (`intv`). -/
inductive JSONValue where
  | null
  | bool (b : Bool)
  | num (x : ℚ)
  | intv (n : ℤ)
  | str (s : String)
  | arr (elems : List JSONValue)
  | obj (fields : List (String × JSONValue))
  | matcher (m : Matcher)
deriving Inhabited

/-- The `Match` methods of src/matchers.go lines 21-136, one case per
matcher variant.  `anyInt` on a float checks `v == float64(int64(v))`;
`oneOf` uses Go `==`, which on the string values the parser collects is
string equality (a non-string actual compares unequal to every entry). -/
def Matcher.Match : Matcher → JSONValue → Bool
  | .anyString, v => match v with | .str _ => true | _ => false
  | .anyInt, v =>
    match v with
    | .intv _ => true
    | .num x => x == ((ratTrunc x : ℤ) : ℚ)
    | _ => false
  | .anyFloat, v => match v with | .num _ => true | .intv _ => true | _ => false
  | .anyBool, v => match v with | .bool _ => true | _ => false
  | .anyValue, _ => true
  | .ignore, _ => true
  | .regex _ re, v => match v with | .str s => re s | _ => false
  | .oneOf values, v => match v with | .str s => values.contains s | _ => false

/-- The `String()` descriptions of src/matchers.go (braces written with
their character codes). -/
def Matcher.describe : Matcher → String
  | .anyString => "\x7b\x7banyString\x7d\x7d"
  | .anyInt => "\x7b\x7banyInt\x7d\x7d"
  | .anyFloat => "\x7b\x7banyFloat\x7d\x7d"
  | .anyBool => "\x7b\x7banyBool\x7d\x7d"
  | .anyValue => "\x7b\x7banyValue\x7d\x7d"
  | .ignore => "\x7b\x7bignore\x7d\x7d"
  | .regex pattern _ => "\x7b\x7bregex `" ++ pattern ++ "`\x7d\x7d"
  | .oneOf values =>
    "\x7b\x7boneOf [" ++ String.intercalate " " values ++ "]\x7d\x7d"

/-- src/matchers.go `IsIgnore`. -/
def IsIgnore : Matcher → Bool
  | .ignore => true
  | _ => false

/-! ## Difference records and configuration (src/diff.go, config chunk) -/

/-- src/diff.go `DiffType`. -/
inductive DiffType where
  | changed
  | added
  | removed
  | typeMismatch
  | matcherFailed
deriving DecidableEq, Repr

/-- src/diff.go `Difference`.  The Go `any` fields hold JSON values, matcher
descriptions (strings) or nil; nil is modelled as `JSONValue.null`. -/
structure Difference where
  Path : String
  Expected : JSONValue
  Actual : JSONValue
  type : DiffType

/-- The JSON comparison `Config` (IgnoreArrayOrder, IgnoreArrayOrderPaths,
IgnoredFields, Update). -/
structure Config where
  IgnoreArrayOrder : Bool
  IgnoreArrayOrderPaths : List String
  IgnoredFields : List String
  Update : Bool

/-- Go `Config.shouldIgnoreArrayOrder`. -/
def Config.shouldIgnoreArrayOrder (c : Config) (path : String) : Bool :=
  c.IgnoreArrayOrder ||
    c.IgnoreArrayOrderPaths.any fun p =>
      p == path || strStartsWith path (p ++ ".") || strStartsWith path (p ++ "[")

/-- Go `Config.isFieldIgnored`: exact path match or match on the last
dot-separated segment. -/
def Config.isFieldIgnored (c : Config) (path : String) : Bool :=
  c.IgnoredFields.any fun f =>
    f == path || (splitOnDot path).getLast? == some f

/-- The default configuration built by `newConfig` with no options (update
mode off). -/
def defaultConfig : Config :=
  ⟨false, [], [], false⟩

/-! ## The comparator (part_003 `compare` and helpers) -/

/-- First-match association-list lookup, the model of Go `actMap[key]`. -/
def lookupField : List (String × JSONValue) → String → Option JSONValue
  | [], _ => none
  | (k, v) :: rest, key => if k == key then some v else lookupField rest key

/-- Child path for array elements: Go `fmt.Sprintf("%s[%d]", path, i)`. -/
def arrPath (path : String) (i : Nat) : String :=
  path ++ "[" ++ toString i ++ "]"

/-- The inner scan of `compareArraysUnordered`: the first index whose used
flag is unset and whose element satisfies `p`, scanning in original order. -/
def findUnused (p : JSONValue → Bool) : List JSONValue → List Bool → Option Nat
  | [], _ => none
  | a :: rest, [] =>
    if p a then some 0 else (findUnused p rest []).map (· + 1)
  | a :: rest, u :: urest =>
    if !u && p a then some 0 else (findUnused p rest urest).map (· + 1)

/-- Check of Go `if m, ok := expVal.(Matcher); ok && IsIgnore(m)`. -/
def isIgnoreMatcherValue : JSONValue → Bool
  | .matcher m => IsIgnore m
  | _ => false

/-- Second pass of `compareObjects`: keys present only in the actual map
produce `Added` differences (no recursion into `compare`). -/
def objSecondPass (expected actMap : List (String × JSONValue)) (path : String)
    (cfg : Config) : List Difference :=
  actMap.filterMap fun kv =>
    if cfg.isFieldIgnored (path ++ "." ++ kv.1) then none
    else if (lookupField expected kv.1).isSome then none
    else some ⟨path ++ "." ++ kv.1, .null, kv.2, .added⟩

/-- Tail of `compareArraysOrdered` once expected is exhausted: each
remaining actual element is `Added`. -/
def addedTail (rest : List JSONValue) (path : String) (i : Nat) : List Difference :=
  match rest with
  | [] => []
  | a :: more => ⟨arrPath path i, .null, a, .added⟩ :: addedTail more path (i + 1)

/-- Indices of the unset flags, in order (`unusedActual` in the source). -/
def unusedIndices (used : List Bool) : List Nat :=
  (List.range used.length).filter fun j => !(used.getD j false)

/-- Differences built for unmatched expected elements in
`compareArraysUnordered`: each unmatched index is paired positionally with
the next unused actual element, or with nil when none remain. -/
def buildUnmatchedDiffs (unmatched : List Nat) (used : List Bool)
    (expected actual : List JSONValue) (path : String) : List Difference :=
  unmatched.enum.map fun p =>
    ⟨arrPath path p.2, expected.getD p.2 .null,
      (match (unusedIndices used).get? p.1 with
       | some j => actual.getD j .null
       | none => .null),
      .changed⟩

/-- Go `compareNumbers` (part_003): normalizes the actual numeric value to
float64 before comparison; non-numeric actuals are a type mismatch. -/
def compareNumbers (expected : ℚ) (actual : JSONValue) (path : String) : List Difference :=
  match actual with
  | .num v =>
    if expected ≠ v then [⟨path, .num expected, .num v, .changed⟩] else []
  | .intv n =>
    if expected ≠ (n : ℚ) then [⟨path, .num expected, .num (n : ℚ), .changed⟩] else []
  | _ => [⟨path, .num expected, actual, .typeMismatch⟩]

mutual

/-- Go `compare` (part_003 lines 90-199): ignore-rule check, matcher
shortcut, nil handling, then dispatch on the expected node's shape.  The
`default:` branch of the Go type switch (reflect.DeepEqual) is reachable in
this universe only for the integer scalars `intv`. -/
def compare (expected actual : JSONValue) (path : String) (cfg : Config) : List Difference :=
  if cfg.isFieldIgnored path then []
  else
    match expected, actual with
    | .matcher m, a =>
      if IsIgnore m then []
      else if m.Match a then []
      else [⟨path, .str m.describe, a, .matcherFailed⟩]
    | .null, .null => []
    | .null, a => [⟨path, .null, a, .added⟩]
    | e, .null => [⟨path, e, .null, .removed⟩]
    | .obj fields, a => compareObjects fields a path cfg
    | .arr elems, a => compareArrays elems a path cfg
    | .str s, a =>
      match a with
      | .str t => if s ≠ t then [⟨path, .str s, .str t, .changed⟩] else []
      | _ => [⟨path, .str s, a, .typeMismatch⟩]
    | .num x, a => compareNumbers x a path
    | .bool b, a =>
      match a with
      | .bool c => if b ≠ c then [⟨path, .bool b, .bool c, .changed⟩] else []
      | _ => [⟨path, .bool b, a, .typeMismatch⟩]
    | .intv n, a =>
      match a with
      | .intv k => if n ≠ k then [⟨path, .intv n, .intv k, .changed⟩] else []
      | _ => [⟨path, .intv n, a, .changed⟩]
termination_by (sizeOf expected, 0)

/-- Go `compareObjects` (part_003 lines 202-257): type-check the actual
value, then the two passes. -/
def compareObjects (expected : List (String × JSONValue)) (actual : JSONValue)
    (path : String) (cfg : Config) : List Difference :=
  match actual with
  | .obj actMap =>
    objFirstPass expected actMap path cfg ++ objSecondPass expected actMap path cfg
  | _ => [⟨path, .obj expected, actual, .typeMismatch⟩]
termination_by (sizeOf expected, 2)

/-- First pass of `compareObjects`: missing keys are `Removed`, present keys
recurse; ignored paths and ignore matchers are skipped. -/
def objFirstPass (expected actMap : List (String × JSONValue)) (path : String)
    (cfg : Config) : List Difference :=
  match expected with
  | [] => []
  | (key, expVal) :: rest =>
    (if cfg.isFieldIgnored (path ++ "." ++ key) then []
     else if isIgnoreMatcherValue expVal then []
     else
       match lookupField actMap key with
       | none => [⟨path ++ "." ++ key, expVal, .null, .removed⟩]
       | some actVal => compare expVal actVal (path ++ "." ++ key) cfg)
      ++ objFirstPass rest actMap path cfg
termination_by (sizeOf expected, 1)

/-- Go `compareArrays` (part_003 lines 260-276). -/
def compareArrays (expected : List JSONValue) (actual : JSONValue) (path : String)
    (cfg : Config) : List Difference :=
  match actual with
  | .arr actArr =>
    if cfg.shouldIgnoreArrayOrder path then
      compareArraysUnordered expected actArr path cfg
    else
      compareArraysOrdered expected actArr path cfg 0
  | _ => [⟨path, .arr expected, actual, .typeMismatch⟩]
termination_by (sizeOf expected, 3)

/-- Go `compareArraysOrdered` (part_003 lines 279-306): index-by-index
up to the longer length, carrying the running index `i`. -/
def compareArraysOrdered (expected actual : List JSONValue) (path : String)
    (cfg : Config) (i : Nat) : List Difference :=
  match expected, actual with
  | [], rest => addedTail rest path i
  | e :: erest, [] =>
    ⟨arrPath path i, e, .null, .removed⟩ :: compareArraysOrdered erest [] path cfg (i + 1)
  | e :: erest, a :: arest =>
    compare e a (arrPath path i) cfg ++ compareArraysOrdered erest arest path cfg (i + 1)
termination_by (sizeOf expected, 1)

/-- Go `compareArraysUnordered` (part_003 lines 311-377): length check,
greedy first-fit matching, then one `Changed` difference per unmatched
expected element. -/
def compareArraysUnordered (expected actual : List JSONValue) (path : String)
    (cfg : Config) : List Difference :=
  if expected.length ≠ actual.length then
    [⟨path, .str ("array of length " ++ toString expected.length),
       .str ("array of length " ++ toString actual.length), .changed⟩]
  else
    let r := greedyLoop expected 0 actual (List.replicate actual.length false) path cfg
    if r.2.isEmpty then []
    else buildUnmatchedDiffs r.2 r.1 expected actual path
termination_by (sizeOf expected, 2)

/-- The greedy loop of `compareArraysUnordered`: for each expected element
in order, mark the first unused actual element that compares with zero
differences; record the indices of unmatched expected elements. -/
def greedyLoop (exps : List JSONValue) (i : Nat) (acts : List JSONValue)
    (used : List Bool) (path : String) (cfg : Config) : List Bool × List Nat :=
  match exps with
  | [] => (used, [])
  | exp :: rest =>
    match findUnused (fun act => (compare exp act path cfg).isEmpty) acts used with
    | some j => greedyLoop rest (i + 1) acts (used.set j true) path cfg
    | none =>
      let r := greedyLoop rest (i + 1) acts used path cfg
      (r.1, i :: r.2)
termination_by (sizeOf exps, 1)

end

/-- Go `sortDiffs` (part_003 lines 428-432): `sort.Slice` ordering the
differences by their `Path` field.  `sort.Slice` is an unstable sort; the
embedding determinises it as a merge sort with the same key ordering. -/
def sortDiffs (diffs : List Difference) : List Difference :=
  diffs.mergeSort fun a b => decide (a.Path ≤ b.Path)

/-! ## The line differ (src/diff.go `computeDiff`) -/

/-- src/diff.go `diffOp`. -/
inductive DiffOp where
  | equal
  | delete
  | insert
deriving DecidableEq, Repr

/-- The DP table of src/diff.go lines 145-161: `lcsTable X Y i j` is
`dp[i][j]`, the LCS length of the first `i` expected lines and the first
`j` actual lines. -/
def lcsTable (expected actual : List String) : Nat → Nat → Nat
  | 0, _ => 0
  | _ + 1, 0 => 0
  | i + 1, j + 1 =>
    if expected.getD i "" = actual.getD j "" then lcsTable expected actual i j + 1
    else max (lcsTable expected actual i (j + 1)) (lcsTable expected actual (i + 1) j)

/-- The backtracking loop of src/diff.go lines 163-196, with the collected
operations already reversed into forward order (the source appends in
reverse and reverses once at the end).  `fuel` bounds the loop; every step
decreases `i + j` by at least one, so `i + j ≤ fuel` makes the bound
inert. -/
def backtrack (expected actual : List String) (dp : Nat → Nat → Nat) :
    Nat → Nat → Nat → List (DiffOp × String)
  | 0, _, _ => []
  | fuel + 1, i, j =>
    if 0 < i ∧ 0 < j ∧ expected.getD (i - 1) "" = actual.getD (j - 1) "" then
      backtrack expected actual dp fuel (i - 1) (j - 1) ++ [(.equal, expected.getD (i - 1) "")]
    else if 0 < j ∧ (i = 0 ∨ dp i (j - 1) ≥ dp (i - 1) j) then
      backtrack expected actual dp fuel i (j - 1) ++ [(.insert, actual.getD (j - 1) "")]
    else if 0 < i then
      backtrack expected actual dp fuel (i - 1) j ++ [(.delete, expected.getD (i - 1) "")]
    else []

/-- src/diff.go `computeDiff` as the sequence of diff operations: the DP
table followed by the backtrack from the bottom-right cell.  The source
renders each operation as a line prefixed `"  "`, `"- "` or `"+ "` (the
latter two wrapped in ANSI colors depending on the process environment);
that rendering is display-only and outside the model. -/
def computeDiff (expected actual : List String) : List (DiffOp × String) :=
  backtrack expected actual (lcsTable expected actual)
    (expected.length + actual.length) expected.length actual.length

/-- Applying a diff as a patch: keep `equal` lines, take `insert` lines,
drop `delete` lines, in output order. -/
def applyPatch (ops : List (DiffOp × String)) : List String :=
  ops.filterMap fun p => if p.1 = DiffOp.delete then none else some p.2

/-- Number of entries of a given operation kind. -/
def countOp (op : DiffOp) (ops : List (DiffOp × String)) : Nat :=
  (ops.filter fun p => p.1 = op).length

/-! ## Matcher expression parsing (src/matchers.go lines 189-314) -/

/-- The external regular-expression engine (Go's `regexp` package): `compile`
yields the decision function of a compiled pattern, or `none` when the
pattern does not compile (the `InvalidPattern` error case). -/
structure RegexEngine where
  compile : String → Option (String → Bool)

/-- An arbitrary engine instance used for concrete inputs whose expressions
never reach pattern compilation. -/
def trivialRegexEngine : RegexEngine :=
  ⟨fun _ => some fun _ => false⟩

/-- Model of Go `strconv.Unquote` on a double-quoted literal, an external
stdlib collaborator; handles the standard escapes used by the template
grammar and rejects malformed literals. -/
def goUnquoteAux : List Char → List Char → Except String (List Char)
  | [], _ => .error "unterminated string"
  | '"' :: rest, acc =>
    if rest.isEmpty then .ok acc.reverse else .error "trailing characters"
  | '\\' :: c :: rest, acc =>
    if c = '"' then goUnquoteAux rest ('"' :: acc)
    else if c = '\\' then goUnquoteAux rest ('\\' :: acc)
    else if c = 'n' then goUnquoteAux rest ('\n' :: acc)
    else if c = 't' then goUnquoteAux rest ('\t' :: acc)
    else if c = 'r' then goUnquoteAux rest ('\r' :: acc)
    else .error "invalid escape"
  | ['\\'], _ => .error "unterminated escape"
  | c :: rest, acc => goUnquoteAux rest (c :: acc)

def goUnquote (s : String) : Except String String :=
  match s.data with
  | '"' :: rest => (goUnquoteAux rest []).map String.mk
  | _ => .error "not a quoted string"

/-- Go `extractBacktickArg` (matchers.go): content between the first pair
of backticks, empty when absent. -/
def extractBacktickArg (s : String) : String :=
  match (trimSpace s).data with
  | '`' :: rest =>
    match indexOf rest '`' with
    | some e => String.mk (rest.take e)
    | none => ""
  | _ => ""

/-- Go `extractQuotedArg` (matchers.go): unquote up to the first closing
quote, falling back to the raw slice when `strconv.Unquote` fails. -/
def extractQuotedArg (s : String) : String :=
  match (trimSpace s).data with
  | '"' :: rest =>
    match indexOf rest '"' with
    | some e =>
      match goUnquote (String.mk ('"' :: rest.take (e + 1))) with
      | .ok u => u
      | .error _ => String.mk (rest.take e)
    | none => ""
  | _ => ""

/-- Whether `pat` occurs as a contiguous subsequence (Go `strings.Contains`). -/
def containsSub : List Char → List Char → Bool
  | s, pat =>
    match s with
    | [] => pat.isEmpty
    | c :: rest => pat.isPrefixOf (c :: rest) || containsSub rest pat

/-- Leftmost non-overlapping replacement (Go `strings.ReplaceAll`), with a
fuel bound of the input length (each step consumes at least one character). -/
def replaceAllSubFuel : Nat → List Char → List Char → List Char → List Char
  | 0, s, _, _ => s
  | fuel + 1, s, pat, repl =>
    match s with
    | [] => []
    | c :: rest =>
      if !pat.isEmpty && pat.isPrefixOf s then
        repl ++ replaceAllSubFuel fuel (s.drop pat.length) pat repl
      else c :: replaceAllSubFuel fuel rest pat repl

def replaceAllSub (s pat repl : List Char) : List Char :=
  replaceAllSubFuel s.length s pat repl

/-- The scan loop of Go `extractQuotedArgs` (matchers.go lines 274-291),
with a fuel bound of the input length. -/
def extractQuotedArgsLoop : Nat → List Char → List String
  | 0, _ => []
  | fuel + 1, s =>
    match s with
    | [] => []
    | '"' :: rest =>
      match indexOf rest '"' with
      | some e =>
        (match goUnquote (String.mk ('"' :: rest.take (e + 1))) with
         | .ok u => u
         | .error _ => String.mk (rest.take e)) ::
          extractQuotedArgsLoop fuel (trimSpace (String.mk (rest.drop (e + 1)))).data
      | none => []
    | _ => []

/-- Go `extractQuotedArgs` (matchers.go): JSON-escaped quotes are first
rewritten to plain quotes, then quoted strings are collected left to
right. -/
def extractQuotedArgs (s : String) : List String :=
  let s1 := (trimSpace s).data
  let s2 :=
    if containsSub s1 ['\\', '"'] || containsSub s1 ['\\', '\\', '"'] then
      replaceAllSub (replaceAllSub s1 ['\\', '\\', '"'] ['"']) ['\\', '"'] ['"']
    else s1
  extractQuotedArgsLoop s2.length s2

/-- Go `parseMatcher` (matchers.go lines 191-231), the exported
`ParseMatcher` used by the template parsers: keyword matchers, then
`regex`, then `oneOf`, otherwise the unknown-matcher error.  Go's byte
length coincides with character length on the ASCII keywords involved. -/
def parseMatcher (eng : RegexEngine) (expr : String) : Except String Matcher :=
  if expr = "anyString" then .ok .anyString
  else if expr = "anyInt" then .ok .anyInt
  else if expr = "anyFloat" then .ok .anyFloat
  else if expr = "anyBool" then .ok .anyBool
  else if expr = "anyValue" then .ok .anyValue
  else if expr = "ignore" then .ok .ignore
  else if expr.length > 6 && strStartsWith expr "regex " then
    let tail := String.mk (expr.data.drop 6)
    let pattern := extractBacktickArg tail
    if pattern ≠ "" then
      match eng.compile pattern with
      | some re => .ok (.regex pattern re)
      | none => .error ("invalid regex pattern: " ++ pattern)
    else
      let pattern2 := extractQuotedArg tail
      if pattern2 ≠ "" then
        match eng.compile pattern2 with
        | some re => .ok (.regex pattern2 re)
        | none => .error ("invalid regex pattern: " ++ pattern2)
      else .error ("invalid regex syntax: " ++ expr)
  else if expr.length > 6 && strStartsWith expr "oneOf " then
    let values := extractQuotedArgs (String.mk (expr.data.drop 6))
    if !values.isEmpty then .ok (.oneOf values)
    else .error ("invalid oneOf syntax: " ++ expr)
  else .error ("unknown matcher: " ++ expr)

/-! ## The expected-file template parser (src/template.go) -/

/-- The placeholder for template expression number `idx`
(`__TESTASTIC_MATCHER_<idx>__`). -/
def placeholderOf (idx : Nat) : String :=
  "__TESTASTIC_MATCHER_" ++ toString idx ++ "__"

def trimPrefixStr (s pre : String) : String :=
  if strStartsWith s pre then String.mk (s.data.drop pre.data.length) else s

def trimSuffixStr (s suf : String) : String :=
  if strEndsWith s suf then String.mk (s.data.take (s.data.length - suf.data.length)) else s

/-- The replacement callback of `ParseExpectedString`: strip the optional
surrounding quotes, the braces and surrounding space from a regex match. -/
def templateExprOf (m : String) : String :=
  let e1 := if strStartsWith m "\"\x7b\x7b" then trimPrefixStr m "\"" else m
  let e2 := if strEndsWith e1 "\x7d\x7d\"" then trimSuffixStr e1 "\"" else e1
  let e3 := trimPrefixStr e2 "\x7b\x7b"
  let e4 := trimSuffixStr e3 "\x7d\x7d"
  trimSpace e4

/-- One match attempt of the template regex `"?\x7b\x7b([^\x7d]+)\x7d\x7d"?`
at the head of the character list: the optional quotes are taken greedily
when adjacent, the inner run is the maximal nonempty run of
non-closing-brace characters.  Returns the consumed length and the matched
text. -/
def matchTemplateCore (pre : List Char) (rest : List Char) : Option (Nat × List Char) :=
  let inner := rest.takeWhile (fun c => c ≠ '\x7d')
  if inner.isEmpty then none
  else
    match rest.drop inner.length with
    | '\x7d' :: '\x7d' :: '"' :: _ =>
      some (pre.length + inner.length + 3, pre ++ inner ++ ['\x7d', '\x7d', '"'])
    | '\x7d' :: '\x7d' :: _ =>
      some (pre.length + inner.length + 2, pre ++ inner ++ ['\x7d', '\x7d'])
    | _ => none

def matchTemplateAt (cs : List Char) : Option (Nat × List Char) :=
  match cs with
  | '"' :: '\x7b' :: '\x7b' :: rest => matchTemplateCore ['"', '\x7b', '\x7b'] rest
  | '\x7b' :: '\x7b' :: rest => matchTemplateCore ['\x7b', '\x7b'] rest
  | _ => none

/-- The `ReplaceAllStringFunc` pass of `ParseExpectedString`: leftmost
non-overlapping matches of the template regex are replaced by quoted
placeholders while the placeholder→expression table is collected.  Fuel is
the input length (every step consumes at least one character). -/
def processTemplateAux : Nat → List Char → Nat → List Char × List (String × String)
  | 0, cs, _ => (cs, [])
  | fuel + 1, cs, idx =>
    match cs with
    | [] => ([], [])
    | c :: rest =>
      match matchTemplateAt cs with
      | some (consumed, matched) =>
        let r := processTemplateAux fuel (cs.drop consumed) (idx + 1)
        (("\"" ++ placeholderOf idx ++ "\"").data ++ r.1,
          (placeholderOf idx, templateExprOf (String.mk matched)) :: r.2)
      | none =>
        let r := processTemplateAux fuel rest idx
        (c :: r.1, r.2)

/-- The substitution phase of `ParseExpectedString`: the processed content
and the placeholder table. -/
def processTemplate (content : String) : String × List (String × String) :=
  let r := processTemplateAux content.data.length content.data 0
  (String.mk r.1, r.2)

/-! ## JSON unmarshalling (external collaborator) -/

def jsonSkipWS (cs : List Char) : List Char :=
  cs.dropWhile fun c => c = ' ' || c = '\t' || c = '\n' || c = '\r'

/-- Scan of a JSON string body after the opening quote. -/
def jsonParseStringRest : List Char → List Char → Except String (String × List Char)
  | [], _ => .error "unterminated string"
  | '"' :: rest, acc => .ok (String.mk acc.reverse, rest)
  | '\\' :: c :: rest, acc =>
    if c = '"' then jsonParseStringRest rest ('"' :: acc)
    else if c = '\\' then jsonParseStringRest rest ('\\' :: acc)
    else if c = '/' then jsonParseStringRest rest ('/' :: acc)
    else if c = 'n' then jsonParseStringRest rest ('\n' :: acc)
    else if c = 't' then jsonParseStringRest rest ('\t' :: acc)
    else if c = 'r' then jsonParseStringRest rest ('\r' :: acc)
    else .error "unsupported escape"
  | ['\\'], _ => .error "unterminated escape"
  | c :: rest, acc => jsonParseStringRest rest (c :: acc)

def digitsToNat (ds : List Char) : Nat :=
  ds.foldl (fun acc c => acc * 10 + (c.toNat - 48)) 0

/-- Number parsing into the rational modelling Go's float64. -/
def jsonParseNumber (cs : List Char) : Except String (JSONValue × List Char) :=
  let neg := match cs with | '-' :: _ => true | _ => false
  let cs1 := if neg then cs.drop 1 else cs
  let ds := cs1.takeWhile Char.isDigit
  if ds.isEmpty then .error "invalid number"
  else
    let cs2 := cs1.drop ds.length
    match cs2 with
    | '.' :: r =>
      let fs := r.takeWhile Char.isDigit
      if fs.isEmpty then .error "invalid number"
      else
        let base : ℚ := ((digitsToNat ds * 10 ^ fs.length + digitsToNat fs : ℤ) : ℚ) /
          ((10 ^ fs.length : ℕ) : ℚ)
        .ok (.num (if neg then -base else base), r.drop fs.length)
    | _ =>
      let base : ℚ := ((digitsToNat ds : ℤ) : ℚ)
      .ok (.num (if neg then -base else base), cs2)

/-- Go map insertion order semantics for decoded objects: a later duplicate
key replaces the earlier one. -/
def insertField (fields : List (String × JSONValue)) (k : String) (v : JSONValue) :
    List (String × JSONValue) :=
  (fields.filter fun kv => kv.1 ≠ k) ++ [(k, v)]

mutual

/-- Modelled from the spec: the native JSON parser (`encoding/json`
unmarshal into `any`), an external collaborator (§6) that turns text into
a basic tree of maps, lists and scalars.  Exponents and `\u` escapes are
not modelled; fuel is bounded by the input length. -/
def jsonParseValue : Nat → List Char → Except String (JSONValue × List Char)
  | 0, _ => .error "fuel exhausted"
  | fuel + 1, cs =>
    match jsonSkipWS cs with
    | [] => .error "unexpected end of input"
    | 'n' :: 'u' :: 'l' :: 'l' :: rest => .ok (.null, rest)
    | 't' :: 'r' :: 'u' :: 'e' :: rest => .ok (.bool true, rest)
    | 'f' :: 'a' :: 'l' :: 's' :: 'e' :: rest => .ok (.bool false, rest)
    | '"' :: rest =>
      match jsonParseStringRest rest [] with
      | .ok (s, r) => .ok (.str s, r)
      | .error e => .error e
    | '[' :: rest => jsonParseArrayItems fuel rest [] true
    | '\x7b' :: rest => jsonParseObjectItems fuel rest [] true
    | cs2 => jsonParseNumber cs2

def jsonParseArrayItems : Nat → List Char → List JSONValue → Bool →
    Except String (JSONValue × List Char)
  | 0, _, _, _ => .error "fuel exhausted"
  | fuel + 1, cs, acc, first =>
    match jsonSkipWS cs with
    | ']' :: rest =>
      if first then .ok (.arr acc.reverse, rest)
      else .error "trailing comma"
    | cs2 =>
      match jsonParseValue fuel cs2 with
      | .error e => .error e
      | .ok (v, r) =>
        match jsonSkipWS r with
        | ',' :: r2 => jsonParseArrayItems fuel r2 (v :: acc) false
        | ']' :: r2 => .ok (.arr (v :: acc).reverse, r2)
        | _ => .error "expected comma or bracket"

def jsonParseObjectItems : Nat → List Char → List (String × JSONValue) → Bool →
    Except String (JSONValue × List Char)
  | 0, _, _, _ => .error "fuel exhausted"
  | fuel + 1, cs, acc, first =>
    match jsonSkipWS cs with
    | '\x7d' :: rest =>
      if first then .ok (.obj acc, rest)
      else .error "trailing comma"
    | '"' :: rest =>
      match jsonParseStringRest rest [] with
      | .error e => .error e
      | .ok (key, r) =>
        match jsonSkipWS r with
        | ':' :: r2 =>
          match jsonParseValue fuel r2 with
          | .error e => .error e
          | .ok (v, r3) =>
            match jsonSkipWS r3 with
            | ',' :: r4 => jsonParseObjectItems fuel r4 (insertField acc key v) false
            | '\x7d' :: r4 => .ok (.obj (insertField acc key v), r4)
            | _ => .error "expected comma or brace"
        | _ => .error "expected colon"
    | _ => .error "expected object key"

end

/-- Top-level unmarshal: one value followed only by whitespace. -/
def jsonUnmarshal (s : String) : Except String JSONValue :=
  match jsonParseValue (s.data.length + 2) s.data with
  | .ok (v, rest) =>
    if (jsonSkipWS rest).isEmpty then .ok v else .error "trailing data"
  | .error e => .error e

/-! ## Placeholder replacement and ParseExpectedString (src/template.go) -/

def lookupStr : List (String × String) → String → Option String
  | [], _ => none
  | (k, v) :: rest, key => if k == key then some v else lookupStr rest key

mutual

/-- Go `replacePlaceholders` (template.go lines 90-138): string leaves
carrying the placeholder marker are replaced by the parsed matcher; a
missing table entry or a failing `ParseMatcher` aborts with an error.
Object keys are not inspected — only values are walked. -/
def replacePlaceholders (eng : RegexEngine) :
    JSONValue → List (String × String) → Except String JSONValue
  | .obj fields, matchers =>
    match replacePlaceholdersFields eng fields matchers with
    | .ok f => .ok (.obj f)
    | .error e => .error e
  | .arr elems, matchers =>
    match replacePlaceholdersList eng elems matchers with
    | .ok l => .ok (.arr l)
    | .error e => .error e
  | .str s, matchers =>
    if strStartsWith s "__TESTASTIC_MATCHER_" then
      match lookupStr matchers s with
      | none => .error ("unknown placeholder: " ++ s)
      | some expr =>
        match parseMatcher eng expr with
        | .ok m => .ok (.matcher m)
        | .error e => .error ("failed to parse matcher " ++ expr ++ ": " ++ e)
    else .ok (.str s)
  | v, _ => .ok v

def replacePlaceholdersList (eng : RegexEngine) :
    List JSONValue → List (String × String) → Except String (List JSONValue)
  | [], _ => .ok []
  | v :: rest, matchers =>
    match replacePlaceholders eng v matchers with
    | .error e => .error e
    | .ok v2 =>
      match replacePlaceholdersList eng rest matchers with
      | .error e => .error e
      | .ok rest2 => .ok (v2 :: rest2)

def replacePlaceholdersFields (eng : RegexEngine) :
    List (String × JSONValue) → List (String × String) →
      Except String (List (String × JSONValue))
  | [], _ => .ok []
  | kv :: rest, matchers =>
    match replacePlaceholders eng kv.2 matchers with
    | .error e => .error e
    | .ok v2 =>
      match replacePlaceholdersFields eng rest matchers with
      | .error e => .error e
      | .ok rest2 => .ok ((kv.1, v2) :: rest2)

end

/-- The parsed expected document (template.go `ExpectedJSON`). -/
structure ExpectedJSON where
  Data : JSONValue
  Matchers : List (String × String)
  Raw : String

/-- Go `ParseExpectedString` (template.go lines 39-87): substitute template
expressions by placeholders, unmarshal, then replace placeholder leaves by
matchers; any failure aborts with an error and no document. -/
def ParseExpectedString (eng : RegexEngine) (content : String) :
    Except String ExpectedJSON :=
  let r := processTemplate content
  match jsonUnmarshal r.1 with
  | .error e => .error ("failed to parse expected file as JSON: " ++ e)
  | .ok data =>
    match replacePlaceholders eng data r.2 with
    | .error e => .error e
    | .ok replaced => .ok ⟨replaced, r.2, content⟩

mutual

/-- A value-position string leaf that is a placeholder whose recorded
expression is missing or fails to parse as a matcher (object keys are not
value positions). -/
def hasBadValueLeaf (eng : RegexEngine) :
    JSONValue → List (String × String) → Bool
  | .str s, tbl =>
    strStartsWith s "__TESTASTIC_MATCHER_" &&
      (match lookupStr tbl s with
       | none => true
       | some expr => !(parseMatcher eng expr).isOk)
  | .arr l, tbl => hasBadValueLeafList eng l tbl
  | .obj f, tbl => hasBadValueLeafFields eng f tbl
  | _, _ => false

def hasBadValueLeafList (eng : RegexEngine) :
    List JSONValue → List (String × String) → Bool
  | [], _ => false
  | v :: rest, tbl => hasBadValueLeaf eng v tbl || hasBadValueLeafList eng rest tbl

def hasBadValueLeafFields (eng : RegexEngine) :
    List (String × JSONValue) → List (String × String) → Bool
  | [], _ => false
  | kv :: rest, tbl => hasBadValueLeaf eng kv.2 tbl || hasBadValueLeafFields eng rest tbl

end

/-! ## HTML comparison model (part_004 HTMLConfig, src/html.go) -/

def isGoWhitespace (c : Char) : Bool :=
  c = ' ' || c = '\t' || c = '\n' || c = '\r' || c = '\x0b' || c = '\x0c'

/-- Model of Go `strings.TrimSpace` (ASCII whitespace; the same function is
used consistently on both sides of every whitespace check). -/
def goTrimSpace (s : String) : String :=
  String.mk (((s.data.dropWhile isGoWhitespace).reverse.dropWhile isGoWhitespace).reverse)

def goFieldsAux : List Char → List Char → List String
  | [], acc => if acc.isEmpty then [] else [String.mk acc.reverse]
  | c :: rest, acc =>
    if isGoWhitespace c then
      if acc.isEmpty then goFieldsAux rest []
      else String.mk acc.reverse :: goFieldsAux rest []
    else goFieldsAux rest (c :: acc)

/-- Go `normalizeWhitespace` (html.go): collapse whitespace runs to single
spaces via `strings.Fields` + `strings.Join`. -/
def normalizeWhitespace (s : String) : String :=
  String.intercalate " " (goFieldsAux s.data [])

def asciiToLower (c : Char) : Char :=
  if 'A' ≤ c ∧ c ≤ 'Z' then Char.ofNat (c.toNat + 32) else c

/-- Model of Go `strings.EqualFold` restricted to ASCII case folding. -/
def equalFold (a b : String) : Bool :=
  a.data.map asciiToLower == b.data.map asciiToLower

/-- Model of Go `fmt.Sprintf("%q", s)` for the escapes relevant here. -/
def goQuote (s : String) : String :=
  "\"" ++ String.mk (s.data.foldr
    (fun c acc =>
      if c = '"' then '\\' :: '"' :: acc
      else if c = '\\' then '\\' :: '\\' :: acc
      else c :: acc) []) ++ "\""

/-- part_004 `HTMLConfig`. -/
structure HTMLConfig where
  IgnoreComments : Bool
  PreserveWhitespace : Bool
  IgnoreChildOrder : Bool
  IgnoreChildOrderPaths : List String
  IgnoredElements : List String
  IgnoredAttributes : List String
  IgnoredAttributePaths : List String
  Update : Bool

/-- The configuration built by `newHTMLConfig` with no options (update
mode off). -/
def defaultHTMLConfig : HTMLConfig :=
  ⟨false, false, false, [], [], [], [], false⟩

/-- part_004 `shouldIgnoreChildOrder`. -/
def HTMLConfig.shouldIgnoreChildOrder (c : HTMLConfig) (path : String) : Bool :=
  c.IgnoreChildOrder ||
    c.IgnoreChildOrderPaths.any fun p => p == path || strStartsWith path (p ++ " > ")

/-- part_004 `isElementIgnored`. -/
def HTMLConfig.isElementIgnored (c : HTMLConfig) (tag : String) : Bool :=
  c.IgnoredElements.any fun t => equalFold t tag

/-- part_004 `isAttributeIgnored`. -/
def HTMLConfig.isAttributeIgnored (c : HTMLConfig) (path attr : String) : Bool :=
  (c.IgnoredAttributes.any fun a => equalFold a attr) ||
    c.IgnoredAttributePaths.contains (path ++ "@" ++ attr)

/-- src/html_parse.go `HTMLNodeType`. -/
inductive HTMLNodeType where
  | element
  | text
  | comment
  | doctype
deriving DecidableEq, Repr

/-- One segment of an embedded-partial template value: literal text or a
placeholder matcher. -/
inductive TemplateSeg where
  | lit (s : String)
  | hole (m : Matcher)

/-- Modelled from the spec: the `TemplateString` type referenced by
src/html.go is not under src/.  Spec §4.1: a sentinel embedded in an
attribute or text value alongside literal characters resolves to an
embedded-partial matcher "when the surrounding literal text is treated as
a pattern context".  A template string is the sequence of literal and
matcher segments of such a value. -/
structure TemplateString where
  segs : List TemplateSeg

/-- Modelled from the spec: how one matcher segment accepts the piece of
the actual value it consumes inside a pattern context (§4.1 lists
`anyString`, `anyInt`, `anyFloat`, `anyBool`, `anyValue`, `ignore`,
`oneOf` as resolvable in embedded position). -/
def holeMatchStr : Matcher → String → Bool
  | .oneOf values, t => values.contains t
  | .anyString, _ => true
  | .anyValue, _ => true
  | .ignore, _ => true
  | .anyBool, t => t == "true" || t == "false"
  | .anyInt, t => !t.data.isEmpty && t.data.all Char.isDigit
  | .anyFloat, t =>
    !t.data.isEmpty && t.data.all fun c => c.isDigit || c = '.' || c = '-'
  | .regex _ re, t => re t

/-- Modelled from the spec: a template string matches a value when the
value splits into consecutive pieces, literal segments matching exactly
and each matcher segment accepting its piece. -/
def matchSegs : List TemplateSeg → List Char → Bool
  | [], cs => cs.isEmpty
  | .lit l :: rest, cs => l.data.isPrefixOf cs && matchSegs rest (cs.drop l.data.length)
  | .hole m :: rest, cs =>
    (List.range (cs.length + 1)).any fun k =>
      holeMatchStr m (String.mk (cs.take k)) && matchSegs rest (cs.drop k)

def TemplateString.Match (ts : TemplateString) (s : String) : Bool :=
  matchSegs ts.segs s.data

/-- The display form (`String()`) of a template string: literal segments
verbatim and each matcher segment as its description. -/
def TemplateString.display (ts : TemplateString) : String :=
  String.join (ts.segs.map fun seg =>
    match seg with
    | .lit s => s
    | .hole m => m.describe)

/-- The Go `any` universe held by `HTMLNode.Text` and attribute values:
nil, a string, a `Matcher`, or a `TemplateString`. -/
inductive HTMLValue where
  | null
  | str (s : String)
  | matcher (m : Matcher)
  | template (ts : TemplateString)

/-- src/html_parse.go `HTMLNode`. -/
inductive HTMLNode where
  | mk (typ : HTMLNodeType) (Tag : String) (Attributes : List (String × HTMLValue))
      (Children : List HTMLNode) (Text : HTMLValue) (Path : String)

instance : Inhabited HTMLNode :=
  ⟨.mk .text "" [] [] .null ""⟩

def HTMLNode.typ : HTMLNode → HTMLNodeType
  | .mk t _ _ _ _ _ => t

def HTMLNode.Tag : HTMLNode → String
  | .mk _ tag _ _ _ _ => tag

def HTMLNode.Attributes : HTMLNode → List (String × HTMLValue)
  | .mk _ _ attrs _ _ _ => attrs

def HTMLNode.Children : HTMLNode → List HTMLNode
  | .mk _ _ _ children _ _ => children

def HTMLNode.Text : HTMLNode → HTMLValue
  | .mk _ _ _ _ txt _ => txt

def HTMLNode.Path : HTMLNode → String
  | .mk _ _ _ _ _ path => path

/-- src/html.go `HTMLDifference`; the Go `any` fields only ever hold
strings or nil here, modelled as `Option String`. -/
structure HTMLDifference where
  Path : String
  Expected : Option String
  Actual : Option String
  type : DiffType
deriving DecidableEq, Repr

/-- src/html.go `getTextContent`. -/
def getTextContent (node : HTMLNode) : String :=
  match node.Text with
  | .str s => s
  | .matcher m => m.describe
  | .template ts => ts.display
  | .null => ""

/-- src/html.go `getString`. -/
def getString : HTMLValue → String
  | .null => ""
  | .str s => s
  | .matcher m => m.describe
  | .template ts => ts.display

/-- src/html.go `formatAttrValue`. -/
def formatAttrValue : HTMLValue → String
  | .null => "(nil)"
  | .matcher m => m.describe
  | v => goQuote (getString v)

/-- src/html.go `describeNodeType`. -/
def describeNodeType : HTMLNodeType → String
  | .element => "element"
  | .text => "text"
  | .comment => "comment"
  | .doctype => "doctype"

/-- src/html.go `describeNode` (non-nil case; a nil node renders as
`(nil)`, modelled by the `Option` in the difference record). -/
def describeNode (node : HTMLNode) : String :=
  match node.typ with
  | .element => "<" ++ node.Tag ++ ">"
  | .text =>
    let text := getTextContent node
    if text.data.length > 30 then goQuote (String.mk (text.data.take 30)) ++ "..."
    else goQuote text
  | .comment => "<!-- comment -->"
  | .doctype => "<!DOCTYPE>"

/-- src/html.go `buildChildPath` (the index parameter is unused in the
source). -/
def buildChildPath (parentPath : String) (node : HTMLNode) : String :=
  if node.typ = .text then parentPath ++ " (text)"
  else if node.typ = .comment then parentPath ++ " (comment)"
  else if parentPath = "" then node.Tag
  else parentPath ++ " > " ++ node.Tag

def lookupAttr : List (String × HTMLValue) → String → Option HTMLValue
  | [], _ => none
  | (k, v) :: rest, key => if k == key then some v else lookupAttr rest key

/-- Check of Go `if m, ok := expVal.(Matcher); ok && IsIgnore(m)` on HTML
attribute values. -/
def isIgnoreMatcherHTML : HTMLValue → Bool
  | .matcher m => IsIgnore m
  | _ => false

/-- First pass of src/html.go `compareHTMLAttributes`: expected attributes
are looked up in the actual map, with matcher and template-string values
matched rather than compared literally. -/
def htmlAttrFirstPass (expected actual : List (String × HTMLValue)) (path : String)
    (cfg : HTMLConfig) : List HTMLDifference :=
  match expected with
  | [] => []
  | (name, expVal) :: rest =>
    (if cfg.isAttributeIgnored path name then []
     else if isIgnoreMatcherHTML expVal then []
     else
       match lookupAttr actual name with
       | none => [⟨path ++ " @" ++ name, some (formatAttrValue expVal), none, .removed⟩]
       | some actVal =>
         match expVal with
         | .matcher m =>
           if m.Match (.str (getString actVal)) then []
           else [⟨path ++ " @" ++ name, some m.describe, some (getString actVal),
             .matcherFailed⟩]
         | .template ts =>
           if ts.Match (getString actVal) then []
           else [⟨path ++ " @" ++ name, some ts.display, some (getString actVal),
             .matcherFailed⟩]
         | _ =>
           if getString expVal ≠ getString actVal then
             [⟨path ++ " @" ++ name, some (getString expVal), some (getString actVal),
               .changed⟩]
           else []) ++ htmlAttrFirstPass rest actual path cfg

/-- Second pass of `compareHTMLAttributes`: attributes present only on the
actual side are `Added`. -/
def htmlAttrSecondPass (expected actual : List (String × HTMLValue)) (path : String)
    (cfg : HTMLConfig) : List HTMLDifference :=
  actual.filterMap fun kv =>
    if cfg.isAttributeIgnored path kv.1 then none
    else if (lookupAttr expected kv.1).isSome then none
    else some ⟨path ++ " @" ++ kv.1, none, some (formatAttrValue kv.2), .added⟩

/-- src/html.go `compareHTMLAttributes` (lines 339-425). -/
def compareHTMLAttributes (expected actual : List (String × HTMLValue)) (path : String)
    (cfg : HTMLConfig) : List HTMLDifference :=
  htmlAttrFirstPass expected actual path cfg ++ htmlAttrSecondPass expected actual path cfg

/-- src/html.go `filterSignificantChildren` (lines 546-576). -/
def filterSignificantChildren (nodes : List HTMLNode) (cfg : HTMLConfig) : List HTMLNode :=
  nodes.filter fun node =>
    !(node.typ = .element && cfg.isElementIgnored node.Tag) &&
    !(node.typ = .comment && cfg.IgnoreComments) &&
    !(node.typ = .text && !cfg.PreserveWhitespace && goTrimSpace (getTextContent node) == "")

/-- The matcher/template shortcut at the top of `compareHTMLNodes` for
expected text nodes (html.go lines 222-254); `none` when the expected text
is a plain string or the node is not a text node. -/
def textMatcherShortcut (expected actual : HTMLNode) (path : String) :
    Option (List HTMLDifference) :=
  if expected.typ = .text then
    match expected.Text with
    | .matcher m =>
      some (if IsIgnore m then []
        else if m.Match (.str (getTextContent actual)) then []
        else [⟨path, some m.describe, some (getTextContent actual), .matcherFailed⟩])
    | .template ts =>
      some (if ts.Match (getTextContent actual) then []
        else [⟨path, some ts.display, some (getTextContent actual), .matcherFailed⟩])
    | _ => none
  else none

/-- The inner scan of `compareChildrenUnordered`. -/
def findUnusedNode (p : HTMLNode → Bool) : List HTMLNode → List Bool → Option Nat
  | [], _ => none
  | a :: rest, [] =>
    if p a then some 0 else (findUnusedNode p rest []).map (· + 1)
  | a :: rest, u :: urest =>
    if !u && p a then some 0 else (findUnusedNode p rest urest).map (· + 1)

/-- Added differences for trailing actual children in
`compareChildrenOrdered`. -/
def addedTailHTML (rest : List HTMLNode) (path : String) : List HTMLDifference :=
  match rest with
  | [] => []
  | a :: more =>
    ⟨buildChildPath path a, none, some (describeNode a), .added⟩ :: addedTailHTML more path

/-- Differences for unmatched expected children in
`compareChildrenUnordered`. -/
def buildUnmatchedHTML (unmatched : List Nat) (used : List Bool)
    (expected actual : List HTMLNode) (path : String) : List HTMLDifference :=
  unmatched.enum.map fun p =>
    ⟨buildChildPath path (expected.getD p.2 default),
      some (describeNode (expected.getD p.2 default)),
      (match (unusedIndices used).get? p.1 with
       | some j => some (describeNode (actual.getD j default))
       | none => none),
      .changed⟩

mutual

/-- src/html.go `compareHTMLNodes` (lines 216-334). -/
def compareHTMLNodes (expected actual : HTMLNode) (path : String) (cfg : HTMLConfig) :
    List HTMLDifference :=
  if cfg.isElementIgnored expected.Tag then []
  else
    match textMatcherShortcut expected actual path with
    | some r => r
    | none =>
      if expected.typ ≠ actual.typ then
        [⟨path, some (describeNodeType expected.typ), some (describeNodeType actual.typ),
          .typeMismatch⟩]
      else
        match expected.typ with
        | .element =>
          if !(equalFold expected.Tag actual.Tag) then
            [⟨path, some ("<" ++ expected.Tag ++ ">"), some ("<" ++ actual.Tag ++ ">"),
              .changed⟩]
          else
            compareHTMLAttributes expected.Attributes actual.Attributes path cfg ++
              compareHTMLChildren expected.Children actual.Children path cfg
        | .text =>
          let expText := if cfg.PreserveWhitespace then getTextContent expected
            else normalizeWhitespace (getTextContent expected)
          let actText := if cfg.PreserveWhitespace then getTextContent actual
            else normalizeWhitespace (getTextContent actual)
          if expText ≠ actText then [⟨path, some expText, some actText, .changed⟩] else []
        | .comment =>
          if cfg.IgnoreComments then []
          else
            if getString expected.Text ≠ getString actual.Text then
              [⟨path, some (getString expected.Text), some (getString actual.Text),
                .changed⟩]
            else []
        | .doctype =>
          if !(equalFold expected.Tag actual.Tag) then
            [⟨path, some expected.Tag, some actual.Tag, .changed⟩]
          else []
termination_by 4 * sizeOf expected
decreasing_by
  cases expected with
  | mk t tag attrs children txt p => simp [HTMLNode.Children]; omega

/-- src/html.go `compareHTMLChildren` (lines 428-438). -/
def compareHTMLChildren (expected actual : List HTMLNode) (path : String)
    (cfg : HTMLConfig) : List HTMLDifference :=
  let expFiltered := filterSignificantChildren expected cfg
  let actFiltered := filterSignificantChildren actual cfg
  if cfg.shouldIgnoreChildOrder path then
    compareChildrenUnordered expFiltered actFiltered path cfg
  else
    compareChildrenOrdered expFiltered actFiltered path cfg
termination_by 4 * sizeOf expected + 3
decreasing_by
  all_goals
    simp_wf
    have hf : ∀ (l : List HTMLNode) (c : HTMLConfig),
        sizeOf (filterSignificantChildren l c) ≤ sizeOf l := by
      intro l c
      simp only [filterSignificantChildren]
      induction l with
      | nil => simp
      | cons a t ih =>
        simp only [List.filter]
        split <;> simp only [List.cons.sizeOf_spec] <;> omega
    have h1 := hf expected cfg
    omega

/-- src/html.go `compareChildrenOrdered` (lines 441-471). -/
def compareChildrenOrdered (expected actual : List HTMLNode) (path : String)
    (cfg : HTMLConfig) : List HTMLDifference :=
  match expected, actual with
  | [], rest => addedTailHTML rest path
  | e :: erest, [] =>
    ⟨buildChildPath path e, some (describeNode e), none, .removed⟩ ::
      compareChildrenOrdered erest [] path cfg
  | e :: erest, a :: arest =>
    compareHTMLNodes e a (buildChildPath path e) cfg ++
      compareChildrenOrdered erest arest path cfg
termination_by 4 * sizeOf expected + 2
decreasing_by
  all_goals simp_wf
  all_goals omega

/-- src/html.go `compareChildrenUnordered` (lines 476-543). -/
def compareChildrenUnordered (expected actual : List HTMLNode) (path : String)
    (cfg : HTMLConfig) : List HTMLDifference :=
  if expected.length ≠ actual.length then
    [⟨path, some (toString expected.length ++ " children"),
      some (toString actual.length ++ " children"), .changed⟩]
  else
    let r := htmlGreedyLoop expected 0 actual (List.replicate actual.length false) path cfg
    if r.2.isEmpty then []
    else buildUnmatchedHTML r.2 r.1 expected actual path
termination_by 4 * sizeOf expected + 2
decreasing_by
  all_goals simp_wf

/-- The greedy loop of `compareChildrenUnordered`. -/
def htmlGreedyLoop (exps : List HTMLNode) (i : Nat) (acts : List HTMLNode)
    (used : List Bool) (path : String) (cfg : HTMLConfig) : List Bool × List Nat :=
  match exps with
  | [] => (used, [])
  | exp :: rest =>
    match findUnusedNode (fun act => (compareHTMLNodes exp act path cfg).isEmpty) acts used with
    | some j => htmlGreedyLoop rest (i + 1) acts (used.set j true) path cfg
    | none =>
      let r := htmlGreedyLoop rest (i + 1) acts used path cfg
      (r.1, i :: r.2)
termination_by 4 * sizeOf exps + 1
decreasing_by
  all_goals simp_wf
  all_goals omega

end

/-! ## HTML template scanning and node conversion (src/html_parse.go) -/

/-- The placeholder for HTML template expression number `idx`
(`__TESTASTIC_HTML_MATCHER_<idx>__`). -/
def htmlPlaceholderOf (idx : Nat) : String :=
  "__TESTASTIC_HTML_MATCHER_" ++ toString idx ++ "__"

/-- One match attempt of the HTML template regex `\x7b\x7b([^\x7d]+)\x7d\x7d`
at the head of the character list: the inner run is the maximal nonempty
run of non-closing-brace characters.  Returns the consumed length and the
inner text. -/
def matchHTMLTemplateAt (cs : List Char) : Option (Nat × List Char) :=
  match cs with
  | '\x7b' :: '\x7b' :: rest =>
    let inner := rest.takeWhile (fun c => c ≠ '\x7d')
    if inner.isEmpty then none
    else
      match rest.drop inner.length with
      | '\x7d' :: '\x7d' :: _ => some (inner.length + 4, inner)
      | _ => none
  | _ => none

/-- The `ReplaceAllStringFunc` pass of `ParseExpectedHTMLString`
(src/html_parse.go lines 66-80): leftmost non-overlapping matches of the
template regex are replaced by bare placeholders while the
placeholder-to-expression table is collected.  Fuel is the input length. -/
def processHTMLTemplateAux : Nat → List Char → Nat → List Char × List (String × String)
  | 0, cs, _ => (cs, [])
  | fuel + 1, cs, idx =>
    match cs with
    | [] => ([], [])
    | c :: rest =>
      match matchHTMLTemplateAt cs with
      | some (consumed, inner) =>
        let r := processHTMLTemplateAux fuel (cs.drop consumed) (idx + 1)
        ((htmlPlaceholderOf idx).data ++ r.1,
          (htmlPlaceholderOf idx, trimSpace (String.mk inner)) :: r.2)
      | none =>
        let r := processHTMLTemplateAux fuel rest idx
        (c :: r.1, r.2)

/-- The substitution phase of `ParseExpectedHTMLString`: the processed
content and the placeholder table. -/
def processHTMLTemplate (content : String) : String × List (String × String) :=
  let r := processHTMLTemplateAux content.data.length content.data 0
  (String.mk r.1, r.2)

/-- The restore loop of src/html_parse.go `resolveHTMLMatcherInValue`
(lines 298-312): a placeholder occurring in the value either resolves the
whole trimmed value to a matcher or is restored to its original
`\x7b\x7bexpr\x7d\x7d` text (map iteration determinised as list order). -/
def resolveHTMLLoop (eng : RegexEngine) : List (String × String) → String → HTMLValue
  | [], value => .str value
  | (ph, expr) :: rest, value =>
    if containsSub value.data ph.data then
      match (if trimSpace value == ph then
               match parseMatcher eng expr with
               | .ok m => some m
               | .error _ => none
             else none) with
      | some m => .matcher m
      | none =>
        resolveHTMLLoop eng rest
          (String.mk (replaceAllSub value.data ph.data
            ("\x7b\x7b" ++ expr ++ "\x7d\x7d").data))
    else resolveHTMLLoop eng rest value

/-- src/html_parse.go `resolveHTMLMatcherInValue` (lines 283-315): the
whole-value placeholder fast path, then the restore loop; a nil matcher
table (the actual side) leaves the value untouched. -/
def resolveHTMLMatcherInValue (eng : RegexEngine) (value : String) :
    Option (List (String × String)) → HTMLValue
  | none => .str value
  | some tbl =>
    match (if strStartsWith value "__TESTASTIC_HTML_MATCHER_" && strEndsWith value "__" then
             match lookupStr tbl value with
             | some expr =>
               match parseMatcher eng expr with
               | .ok m => some m
               | .error _ => none
             | none => none
           else none) with
    | some m => .matcher m
    | none => resolveHTMLLoop eng tbl value

/-- The node type universe of the external `golang.org/x/net/html` parse
tree as consumed by src/html_parse.go (`other` covers the remaining
`html.NodeType` values handled by the default switch arm). -/
inductive GoNodeType where
  | element
  | text
  | comment
  | doctype
  | document
  | other
deriving DecidableEq, Repr

/-- A node of the external HTML parse tree: node type, `Data`, the
attribute list, and the `FirstChild`/`NextSibling` chain as a child
list. -/
inductive GoHTMLNode where
  | mk (typ : GoNodeType) (Data : String) (Attr : List (String × String))
      (Children : List GoHTMLNode)

def GoHTMLNode.typ : GoHTMLNode → GoNodeType
  | .mk t _ _ _ => t

/-- Go `childCounts[tag]` with the zero default. -/
def countOf : List (String × Nat) → String → Nat
  | [], _ => 0
  | (k, v) :: rest, key => if k == key then v else countOf rest key

/-- Go `childCounts[tag]++`. -/
def bumpCount : List (String × Nat) → String → List (String × Nat)
  | [], key => [(key, 1)]
  | (k, v) :: rest, key =>
    if k == key then (k, v + 1) :: rest else (k, v) :: bumpCount rest key

/-- src/html_parse.go `buildElementPath`. -/
def buildElementPath (parentPath tag : String) : String :=
  if parentPath = "" then tag else parentPath ++ " > " ++ tag

/-- src/html_parse.go `buildElementPathWithIndex`. -/
def buildElementPathWithIndex (parentPath tag : String) (index : Nat) : String :=
  if parentPath = "" then
    if index = 0 then tag else tag ++ "[" ++ toString index ++ "]"
  else
    if index = 0 then parentPath ++ " > " ++ tag
    else parentPath ++ " > " ++ tag ++ "[" ++ toString index ++ "]"

/-- The document-node scan of `convertToHTMLNode` (html_parse.go lines
167-191): the first child that is an element or a doctype decides the
conversion shape; membership is kept for the recursion measure. -/
def docScanDecision : (l : List GoHTMLNode) → Option ({c : GoHTMLNode // c ∈ l} ⊕ Unit)
  | [] => none
  | c :: rest =>
    if c.typ = .element then some (.inl ⟨c, List.mem_cons_self c rest⟩)
    else if c.typ = .doctype then some (.inr ())
    else
      (docScanDecision rest).map fun r =>
        match r with
        | .inl d => .inl ⟨d.1, List.mem_cons_of_mem c d.2⟩
        | .inr u => .inr u

mutual

/-- src/html_parse.go `convertToHTMLNode` (lines 104-211); `none` models
the nil result. -/
def convertToHTMLNode (eng : RegexEngine) (matchers : Option (List (String × String))) :
    GoHTMLNode → String → Option HTMLNode
  | .mk .element data attr children, parentPath =>
    let path := buildElementPath parentPath data
    some (.mk .element data
      (attr.map fun kv => (kv.1, resolveHTMLMatcherInValue eng kv.2 matchers))
      (convertChildren eng matchers children path []) .null path)
  | .mk .text data _ _, parentPath =>
    match resolveHTMLMatcherInValue eng data matchers with
    | .str s =>
      if goTrimSpace s == "" then none
      else some (.mk .text "" [] [] (.str s) (parentPath ++ " (text)"))
    | resolved => some (.mk .text "" [] [] resolved (parentPath ++ " (text)"))
  | .mk .comment data _ _, parentPath =>
    some (.mk .comment "" [] [] (.str data) (parentPath ++ " (comment)"))
  | .mk .doctype data _ _, _ =>
    some (.mk .doctype data [] [] .null "<!DOCTYPE>")
  | .mk .document _ _ children, parentPath =>
    match docScanDecision children with
    | some (.inl c) => convertToHTMLNode eng matchers c.1 parentPath
    | some (.inr _) =>
      some (.mk .element "#document" [] (convertAllList eng matchers children) .null "")
    | none =>
      some (.mk .element "#document" [] (convertAllList eng matchers children) .null "")
  | .mk .other _ _ _, _ => none
termination_by n _ => 4 * sizeOf n
decreasing_by
  all_goals simp_wf
  all_goals try (have hm := List.sizeOf_lt_of_mem c.2; omega)
  all_goals omega

/-- src/html_parse.go `convertChildToHTMLNode` (lines 213-254); the
mutated `childCounts` map is returned as updated state. -/
def convertChildToHTMLNode (eng : RegexEngine) (matchers : Option (List (String × String))) :
    GoHTMLNode → String → List (String × Nat) → Option HTMLNode × List (String × Nat)
  | .mk .element data attr children, parentPath, counts =>
    let index := countOf counts data
    let counts2 := bumpCount counts data
    let path := buildElementPathWithIndex parentPath data index
    (some (.mk .element data
      (attr.map fun kv => (kv.1, resolveHTMLMatcherInValue eng kv.2 matchers))
      (convertChildren eng matchers children path []) .null path), counts2)
  | n, parentPath, counts => (convertToHTMLNode eng matchers n parentPath, counts)
termination_by n _ _ => 4 * sizeOf n + 2
decreasing_by
  all_goals simp_wf
  all_goals omega

/-- The child loop of element conversion (lines 127-134 and 240-247): nil
children are skipped and the count map is threaded left to right. -/
def convertChildren (eng : RegexEngine) (matchers : Option (List (String × String))) :
    List GoHTMLNode → String → List (String × Nat) → List HTMLNode
  | [], _, _ => []
  | c :: rest, path, counts =>
    let r := convertChildToHTMLNode eng matchers c path counts
    match r.1 with
    | some child => child :: convertChildren eng matchers rest path r.2
    | none => convertChildren eng matchers rest path r.2
termination_by l _ _ => 4 * sizeOf l + 3
decreasing_by
  all_goals simp_wf
  all_goals omega

/-- The document-wrapper child loops of `convertToHTMLNode` (lines 181-187
and 198-204). -/
def convertAllList (eng : RegexEngine) (matchers : Option (List (String × String))) :
    List GoHTMLNode → List HTMLNode
  | [] => []
  | c :: rest =>
    match convertToHTMLNode eng matchers c "" with
    | some child => child :: convertAllList eng matchers rest
    | none => convertAllList eng matchers rest
termination_by l => 4 * sizeOf l + 3
decreasing_by
  all_goals simp_wf
  all_goals omega

end

/-! ## Embedded-partial template resolution (modelled from the spec) -/

/-- Modelled from the spec: the matcher kinds resolvable in embedded
position (§4.1 lists `anyString`, `anyInt`, `anyFloat`, `anyBool`,
`anyValue`, `ignore`, `oneOf`; regex matchers require the whole value to
be the placeholder). -/
def embeddedResolvable : Matcher → Bool
  | .regex _ _ => false
  | _ => true

/-- The first placeholder of the table occurring at the head of the
character list, with its recorded expression. -/
def findSentinelAt (cs : List Char) : List (String × String) → Option (Nat × String)
  | [] => none
  | (ph, expr) :: rest =>
    if !ph.data.isEmpty && ph.data.isPrefixOf cs then some (ph.data.length, expr)
    else findSentinelAt cs rest

/-- Modelled from the spec: segmentation of a value holding placeholder
sentinels among literal characters into the literal and matcher segments
of an embedded-partial template (§4.1); a sentinel whose expression is not
resolvable in embedded position is restored to its original
`\x7b\x7bexpr\x7d\x7d` text.  Fuel is the input length. -/
def buildSegsAux (eng : RegexEngine) (tbl : List (String × String)) :
    Nat → List Char → List Char → List TemplateSeg
  | 0, cs, acc =>
    if (acc.reverse ++ cs).isEmpty then [] else [.lit (String.mk (acc.reverse ++ cs))]
  | fuel + 1, cs, acc =>
    match cs with
    | [] => if acc.isEmpty then [] else [.lit (String.mk acc.reverse)]
    | c :: rest =>
      match findSentinelAt cs tbl with
      | some (len, expr) =>
        let pre := if acc.isEmpty then ([] : List TemplateSeg)
          else [TemplateSeg.lit (String.mk acc.reverse)]
        (match parseMatcher eng expr with
         | .ok m =>
           if embeddedResolvable m then
             pre ++ TemplateSeg.hole m :: buildSegsAux eng tbl fuel (cs.drop len) []
           else
             pre ++ TemplateSeg.lit ("\x7b\x7b" ++ expr ++ "\x7d\x7d") ::
               buildSegsAux eng tbl fuel (cs.drop len) []
         | .error _ =>
           pre ++ TemplateSeg.lit ("\x7b\x7b" ++ expr ++ "\x7d\x7d") ::
             buildSegsAux eng tbl fuel (cs.drop len) [])
      | none => buildSegsAux eng tbl fuel rest (c :: acc)

/-- Modelled from the spec: resolution of HTML attribute and text values
against the sentinel table when embedded-partial matchers are in play
(§4.1): a value that is exactly one sentinel becomes the parsed `Matcher`;
a value holding sentinels alongside other literal characters becomes the
`TemplateString` of its segments; a value without sentinels is the literal
string.  The `TemplateString` construction site is referenced by
src/html.go but missing from src/. -/
def resolveHTMLMatcherWithTemplates (eng : RegexEngine) (value : String)
    (tbl : List (String × String)) : HTMLValue :=
  match lookupStr tbl (trimSpace value) with
  | some expr =>
    match parseMatcher eng expr with
    | .ok m => .matcher m
    | .error _ => .str value
  | none =>
    if tbl.any (fun p => containsSub value.data p.1.data) then
      .template ⟨buildSegsAux eng tbl value.data.length value.data []⟩
    else .str value

/-! ## Tree predicates used to state claims -/

/-- A node that is not a whitespace-only text node. -/
def textNotWSOnly (node : HTMLNode) : Bool :=
  node.typ ≠ HTMLNodeType.text || goTrimSpace (getTextContent node) ≠ ""

mutual

/-- A tree contains no `Matcher` values. -/
def noMatchers : JSONValue → Bool
  | .null => true
  | .bool _ => true
  | .num _ => true
  | .intv _ => true
  | .str _ => true
  | .matcher _ => false
  | .arr l => noMatchersList l
  | .obj f => noMatchersFields f

def noMatchersList : List JSONValue → Bool
  | [] => true
  | x :: xs => noMatchers x && noMatchersList xs

def noMatchersFields : List (String × JSONValue) → Bool
  | [] => true
  | kv :: xs => noMatchers kv.2 && noMatchersFields xs

end

mutual

/-- Every object in the tree has pairwise-distinct keys.  Go maps cannot
hold duplicate keys; the association-list embedding makes this an explicit
well-formedness condition. -/
def nodupKeys : JSONValue → Bool
  | .null => true
  | .bool _ => true
  | .num _ => true
  | .intv _ => true
  | .str _ => true
  | .matcher _ => true
  | .arr l => nodupKeysList l
  | .obj f => decide (f.map Prod.fst).Nodup && nodupKeysFields f

def nodupKeysList : List JSONValue → Bool
  | [] => true
  | x :: xs => nodupKeys x && nodupKeysList xs

def nodupKeysFields : List (String × JSONValue) → Bool
  | [] => true
  | kv :: xs => nodupKeys kv.2 && nodupKeysFields xs

end

mutual

/-- Every text node in the tree has content that is not whitespace-only. -/
def allTextSignificant : HTMLNode → Bool
  | .mk t tag attrs children txt p =>
    textNotWSOnly (.mk t tag attrs children txt p) && allTextSigList children

def allTextSigList : List HTMLNode → Bool
  | [] => true
  | n :: rest => allTextSignificant n && allTextSigList rest

end

/-- The configuration produced by `newConfig(IgnoreArrayOrder())` (update
mode off): arrays compare order-insensitively everywhere. -/
def ignoreOrderConfig : Config :=
  ⟨true, [], [], false⟩

/-- The actual-side elements whose used flag is still unset, in order; a
proof-side view of the `used` bookkeeping of `compareArraysUnordered`. -/
def maskElems : List JSONValue → List Bool → List JSONValue
  | [], _ => []
  | a :: rest, [] => a :: maskElems rest []
  | a :: rest, u :: urest =>
    if u then maskElems rest urest else a :: maskElems rest urest

/-! ## Claim C2 -/

/-- Claim C2: when the expected value is a matcher, `compare` at a
non-ignored path returns the empty list for the `Ignore` matcher; otherwise
it returns the empty list exactly when `Match(actual)` succeeds, and
otherwise exactly one `MatcherFailed` difference at the given path whose
expected side is the matcher's description. -/
theorem compare_matcher_spec (m : Matcher) (actual : JSONValue) (path : String)
    (cfg : Config) (h : cfg.isFieldIgnored path = false) :
    compare (.matcher m) actual path cfg =
      (if IsIgnore m then []
       else if m.Match actual then []
       else [⟨path, .str m.describe, actual, .matcherFailed⟩]) := by
  rw [compare, h]
  simp

/-- Witness for C2: a `oneOf` matcher failing on a concrete string yields
exactly the single `MatcherFailed` record. -/
theorem compare_matcher_spec_witness :
    defaultConfig.isFieldIgnored "$.status" = false ∧
    compare (.matcher (.oneOf ["active", "pending"])) (.str "bad") "$.status" defaultConfig =
      [⟨"$.status", .str (Matcher.describe (.oneOf ["active", "pending"])), .str "bad",
         .matcherFailed⟩] := by
  refine ⟨by decide, ?_⟩
  rw [compare_matcher_spec _ _ _ _ (by decide)]
  norm_num [IsIgnore, Matcher.Match]
  decide

/-! ## Claim C4 -/

/-- Claim C4: unordered comparison of arrays of different lengths yields
exactly one `Changed` difference at the array's own path summarizing the
two lengths, and never any per-element difference. -/
theorem compareArraysUnordered_length_mismatch (expected actual : List JSONValue)
    (path : String) (cfg : Config) (h : expected.length ≠ actual.length) :
    compareArraysUnordered expected actual path cfg =
      [⟨path, .str ("array of length " ++ toString expected.length),
         .str ("array of length " ++ toString actual.length), .changed⟩] := by
  rw [compareArraysUnordered]
  simp [h]

/-- Witness for C4 at concrete arrays of lengths 2 and 1. -/
theorem compareArraysUnordered_length_mismatch_witness :
    ([JSONValue.str "a", JSONValue.str "b"].length ≠ [JSONValue.null].length) ∧
    compareArraysUnordered [JSONValue.str "a", JSONValue.str "b"] [JSONValue.null]
        "$.tags" defaultConfig =
      [⟨"$.tags", .str ("array of length " ++ toString 2),
         .str ("array of length " ++ toString 1), .changed⟩] := by
  exact ⟨by decide,
    compareArraysUnordered_length_mismatch _ _ _ _ (by decide)⟩

/-! ## Claim C7 -/

/-- Claim C7: `AnyInt.Match` accepts exactly the integer-typed values and
the floating-point values equal to their own truncation toward zero; in
particular it accepts 4.0 and rejects 4.5 and the string "4". -/
theorem anyInt_match_boundary :
    (∀ v : JSONValue, Matcher.Match .anyInt v = true ↔
      ((∃ n : ℤ, v = .intv n) ∨ (∃ x : ℚ, v = .num x ∧ x = ((ratTrunc x : ℤ) : ℚ)))) ∧
    Matcher.Match .anyInt (.num 4) = true ∧
    Matcher.Match .anyInt (.num (Rat.mk' 9 2 (by decide) (by decide))) = false ∧
    Matcher.Match .anyInt (.str "4") = false := by
  refine ⟨?_, by decide, by decide, by decide⟩
  intro v
  cases v <;> simp [Matcher.Match]

/-! ## Claim C8 -/

/-- Claim C8: the difference sequence delivered by a comparison run is
sorted in ascending order of the `Path` field; `sortDiffs` (applied by
`AssertJSON` before reporting) emits a permutation of the collected
differences that is path-sorted, which makes the reported sequence
deterministic up to ties. -/
theorem sortDiffs_sorted_and_perm (diffs : List Difference) :
    List.Pairwise (fun a b : Difference => a.Path ≤ b.Path) (sortDiffs diffs) ∧
      (sortDiffs diffs).Perm diffs := by
  constructor
  · have h := @List.sorted_mergeSort Difference
      (fun a b : Difference => decide (a.Path ≤ b.Path))
      (fun a b c hab hbc => by
        simp only [decide_eq_true_eq] at hab hbc ⊢
        exact le_trans hab hbc)
      (fun a b => by
        simp only [Bool.or_eq_true, decide_eq_true_eq]
        exact le_total a.Path b.Path)
      diffs
    rw [sortDiffs]
    exact h.imp fun hab => by simpa using hab
  · exact List.mergeSort_perm _ _

/-! ## Claim C1 -/

theorem isFieldIgnored_of_no_ignored_fields (cfg : Config) (hf : cfg.IgnoredFields = [])
    (path : String) : cfg.isFieldIgnored path = false := by
  simp [Config.isFieldIgnored, hf]

theorem shouldIgnoreArrayOrder_of_defaults (cfg : Config) (ho : cfg.IgnoreArrayOrder = false)
    (hp : cfg.IgnoreArrayOrderPaths = []) (path : String) :
    cfg.shouldIgnoreArrayOrder path = false := by
  simp [Config.shouldIgnoreArrayOrder, ho, hp]

theorem lookupField_of_mem_nodup (f : List (String × JSONValue)) (k : String) (v : JSONValue)
    (hnd : (f.map Prod.fst).Nodup) (hmem : (k, v) ∈ f) : lookupField f k = some v := by
  induction f with
  | nil => cases hmem
  | cons kv rest ih =>
    obtain ⟨k0, v0⟩ := kv
    simp only [List.map_cons, List.nodup_cons] at hnd
    rcases List.mem_cons.1 hmem with h | h
    · obtain ⟨rfl, rfl⟩ := Prod.mk.injEq .. ▸ h
      simp [lookupField]
    · have hne : k0 ≠ k := by
        intro heq
        exact hnd.1 (heq ▸ List.mem_map_of_mem Prod.fst h)
      rw [lookupField, if_neg (by simpa using hne)]
      exact ih hnd.2 h

theorem lookupField_isSome_of_mem (f : List (String × JSONValue)) (kv : String × JSONValue)
    (hmem : kv ∈ f) : (lookupField f kv.1).isSome = true := by
  induction f with
  | nil => cases hmem
  | cons hd rest ih =>
    obtain ⟨k0, v0⟩ := hd
    rcases List.mem_cons.1 hmem with h | h
    · subst h
      simp [lookupField]
    · rw [lookupField]
      by_cases hk : k0 == kv.1
      · simp [hk]
      · simpa [hk] using ih h

theorem objSecondPass_self (f : List (String × JSONValue)) (path : String) (cfg : Config) :
    objSecondPass f f path cfg = [] := by
  rw [objSecondPass, List.filterMap_eq_nil_iff]
  intro kv hkv
  have h := lookupField_isSome_of_mem f kv hkv
  simp [h]

theorem objFirstPass_self (g f : List (String × JSONValue)) (path : String) (cfg : Config)
    (hg : ∀ kv ∈ g, lookupField f kv.1 = some kv.2 ∧
      compare kv.2 kv.2 (path ++ "." ++ kv.1) cfg = []) :
    objFirstPass g f path cfg = [] := by
  induction g with
  | nil => rw [objFirstPass]
  | cons kv rest ih =>
    obtain ⟨key, v⟩ := kv
    have hhd := hg (key, v) (List.mem_cons_self _ _)
    simp only at hhd
    rw [objFirstPass]
    rw [ih fun kv h => hg kv (List.mem_cons_of_mem _ h), List.append_nil]
    by_cases h1 : cfg.isFieldIgnored (path ++ "." ++ key) = true
    · rw [if_pos h1]
    · rw [if_neg h1]
      by_cases h2 : isIgnoreMatcherValue v = true
      · rw [if_pos h2]
      · rw [if_neg h2, hhd.1]
        exact hhd.2

theorem compareArraysOrdered_self (g : List JSONValue) (path : String) (cfg : Config) (i : Nat)
    (hg : ∀ e ∈ g, ∀ k : Nat, compare e e (arrPath path k) cfg = []) :
    compareArraysOrdered g g path cfg i = [] := by
  induction g generalizing i with
  | nil =>
    rw [compareArraysOrdered]
    simp [addedTail]
  | cons e rest ih =>
    rw [compareArraysOrdered]
    simp only [hg e (List.mem_cons_self _ _) i, List.nil_append]
    exact ih (i + 1) fun x hx => hg x (List.mem_cons_of_mem _ hx)

theorem noMatchersList_mem {l : List JSONValue} (h : noMatchersList l = true)
    {e : JSONValue} (he : e ∈ l) : noMatchers e = true := by
  induction l with
  | nil => cases he
  | cons x xs ih =>
    rw [noMatchersList, Bool.and_eq_true] at h
    rcases List.mem_cons.1 he with rfl | hmem
    · exact h.1
    · exact ih h.2 hmem

theorem noMatchersFields_mem {f : List (String × JSONValue)} (h : noMatchersFields f = true)
    {kv : String × JSONValue} (hkv : kv ∈ f) : noMatchers kv.2 = true := by
  induction f with
  | nil => cases hkv
  | cons x xs ih =>
    rw [noMatchersFields, Bool.and_eq_true] at h
    rcases List.mem_cons.1 hkv with rfl | hmem
    · exact h.1
    · exact ih h.2 hmem

theorem nodupKeysList_mem {l : List JSONValue} (h : nodupKeysList l = true)
    {e : JSONValue} (he : e ∈ l) : nodupKeys e = true := by
  induction l with
  | nil => cases he
  | cons x xs ih =>
    rw [nodupKeysList, Bool.and_eq_true] at h
    rcases List.mem_cons.1 he with rfl | hmem
    · exact h.1
    · exact ih h.2 hmem

theorem nodupKeysFields_mem {f : List (String × JSONValue)} (h : nodupKeysFields f = true)
    {kv : String × JSONValue} (hkv : kv ∈ f) : nodupKeys kv.2 = true := by
  induction f with
  | nil => cases hkv
  | cons x xs ih =>
    rw [nodupKeysFields, Bool.and_eq_true] at h
    rcases List.mem_cons.1 hkv with rfl | hmem
    · exact h.1
    · exact ih h.2 hmem

theorem compare_self_aux (n : Nat) :
    ∀ (T : JSONValue) (path : String) (cfg : Config), sizeOf T ≤ n →
      noMatchers T = true → nodupKeys T = true →
      cfg.IgnoredFields = [] → cfg.IgnoreArrayOrder = false →
      cfg.IgnoreArrayOrderPaths = [] →
      compare T T path cfg = [] := by
  induction n with
  | zero =>
    intro T path cfg hsz _ _ _ _ _
    exact absurd hsz (by cases T <;> simp)
  | succ n ih =>
    intro T path cfg hsz hm hk hf ho hp
    have hig := isFieldIgnored_of_no_ignored_fields cfg hf path
    cases T with
    | null => rw [compare, hig]; simp
    | bool b => rw [compare, hig]; simp
    | num x => rw [compare, hig]; simp [compareNumbers]; all_goals simp
    | intv k => rw [compare, hig]; simp
    | str s => rw [compare, hig]; simp
    | matcher m => rw [noMatchers] at hm; cases hm
    | arr l =>
      have hstep : compare (.arr l) (.arr l) path cfg = compareArrays l (.arr l) path cfg := by
        rw [compare, hig]; simp; all_goals simp
      rw [hstep, compareArrays]
      simp only [shouldIgnoreArrayOrder_of_defaults cfg ho hp path, Bool.false_eq_true, if_false]
      apply compareArraysOrdered_self
      intro e he k
      have hsz2 : sizeOf e ≤ n := by
        have h1 := List.sizeOf_lt_of_mem he
        have h2 : sizeOf (JSONValue.arr l) = 1 + sizeOf l := by simp
        omega
      rw [noMatchers] at hm
      rw [nodupKeys] at hk
      exact ih e (arrPath path k) cfg hsz2 (noMatchersList_mem hm he)
        (nodupKeysList_mem hk he) hf ho hp
    | obj f =>
      have hstep : compare (.obj f) (.obj f) path cfg = compareObjects f (.obj f) path cfg := by
        rw [compare, hig]; simp; all_goals simp
      rw [hstep, compareObjects]
      rw [noMatchers] at hm
      rw [nodupKeys, Bool.and_eq_true, decide_eq_true_eq] at hk
      rw [objFirstPass_self f f path cfg, objSecondPass_self f path cfg]
      · rfl
      · intro kv hkv
        refine ⟨?_, ?_⟩
        · obtain ⟨k0, v0⟩ := kv
          exact lookupField_of_mem_nodup f k0 v0 hk.1 hkv
        · have hsz2 : sizeOf kv.2 ≤ n := by
            have h1 := List.sizeOf_lt_of_mem hkv
            have h2 : sizeOf (JSONValue.obj f) = 1 + sizeOf f := by simp
            have h3 : sizeOf kv.2 < sizeOf kv := by
              obtain ⟨a, b⟩ := kv
              simp only [Prod.mk.sizeOf_spec]
              omega
            omega
          exact ih kv.2 (path ++ "." ++ kv.1) cfg hsz2 (noMatchersFields_mem hm hkv)
            (nodupKeysFields_mem hk.2 hkv) hf ho hp

/-- Claim C1: for every JSON tree containing no matcher values (with the
Go-map well-formedness condition that object keys are unique), comparing
the tree against itself with a default configuration (no ignored fields,
no order-insensitive arrays) returns the empty difference list, for any
path string. -/
theorem compare_identity (T : JSONValue) (path : String) (cfg : Config)
    (hm : noMatchers T = true) (hk : nodupKeys T = true)
    (hf : cfg.IgnoredFields = []) (ho : cfg.IgnoreArrayOrder = false)
    (hp : cfg.IgnoreArrayOrderPaths = []) :
    compare T T path cfg = [] :=
  compare_self_aux (sizeOf T) T path cfg le_rfl hm hk hf ho hp

/-- Witness for C1 at a concrete nested tree. -/
theorem compare_identity_witness :
    noMatchers (JSONValue.obj [("name", .str "Alice"), ("age", .num 30),
      ("tags", .arr [.str "a", .bool true]), ("meta", .obj [("x", .null)])]) = true ∧
    nodupKeys (JSONValue.obj [("name", .str "Alice"), ("age", .num 30),
      ("tags", .arr [.str "a", .bool true]), ("meta", .obj [("x", .null)])]) = true ∧
    compare (JSONValue.obj [("name", .str "Alice"), ("age", .num 30),
        ("tags", .arr [.str "a", .bool true]), ("meta", .obj [("x", .null)])])
      (JSONValue.obj [("name", .str "Alice"), ("age", .num 30),
        ("tags", .arr [.str "a", .bool true]), ("meta", .obj [("x", .null)])])
      "$" defaultConfig = [] :=
  ⟨by decide, by decide, compare_identity _ "$" defaultConfig (by decide) (by decide) rfl rfl rfl⟩

/-! ## Claim C6 -/

theorem applyPatch_append (l1 l2 : List (DiffOp × String)) :
    applyPatch (l1 ++ l2) = applyPatch l1 ++ applyPatch l2 := by
  simp [applyPatch]

theorem countOp_append (op : DiffOp) (l1 l2 : List (DiffOp × String)) :
    countOp op (l1 ++ l2) = countOp op l1 + countOp op l2 := by
  simp [countOp]

theorem lcsTable_le (X Y : List String) :
    ∀ (n i j : Nat), i + j ≤ n → lcsTable X Y i j ≤ min i j := by
  intro n
  induction n with
  | zero =>
    intro i j h
    obtain rfl : i = 0 := by omega
    rw [lcsTable]
    omega
  | succ n ih =>
    intro i j h
    match i, j with
    | 0, j => rw [lcsTable]; omega
    | i + 1, 0 => rw [lcsTable]; omega
    | i + 1, j + 1 =>
      rw [lcsTable]
      have h1 := ih i j (by omega)
      have h2 := ih i (j + 1) (by omega)
      have h3 := ih (i + 1) j (by omega)
      split <;> omega

theorem take_append_getD (Y : List String) (j : Nat) (h0 : 0 < j) (hj : j ≤ Y.length) :
    Y.take (j - 1) ++ [Y.getD (j - 1) ""] = Y.take j := by
  have hlt : j - 1 < Y.length := by omega
  have h1 : Y.take (j - 1 + 1) = Y.take (j - 1) ++ (Y[j - 1]?).toList := List.take_succ
  have h2 : j - 1 + 1 = j := by omega
  rw [h2] at h1
  rw [h1, List.getElem?_eq_getElem hlt]
  simp [List.getD_eq_getElem?_getD, List.getElem?_eq_getElem hlt]

theorem backtrack_spec (X Y : List String) :
    ∀ (fuel i j : Nat), i + j ≤ fuel → i ≤ X.length → j ≤ Y.length →
      applyPatch (backtrack X Y (lcsTable X Y) fuel i j) = Y.take j ∧
      countOp .equal (backtrack X Y (lcsTable X Y) fuel i j) = lcsTable X Y i j ∧
      countOp .delete (backtrack X Y (lcsTable X Y) fuel i j) = i - lcsTable X Y i j ∧
      countOp .insert (backtrack X Y (lcsTable X Y) fuel i j) = j - lcsTable X Y i j := by
  intro fuel
  induction fuel with
  | zero =>
    intro i j h hi hj
    obtain rfl : i = 0 := by omega
    obtain rfl : j = 0 := by omega
    rw [backtrack, lcsTable]
    simp [applyPatch, countOp]
  | succ fuel ih =>
    intro i j h hi hj
    match i, j with
    | 0, 0 =>
      rw [backtrack, lcsTable]
      simp [applyPatch, countOp]
    | 0, j + 1 =>
      rw [backtrack]
      rw [if_neg (by omega), if_pos (by omega)]
      simp only [Nat.add_sub_cancel]
      have ihr := ih 0 j (by omega) (by omega) (by omega)
      rw [applyPatch_append, countOp_append, countOp_append, countOp_append]
      rw [ihr.1, ihr.2.1, ihr.2.2.1, ihr.2.2.2]
      have hz : ∀ k, lcsTable X Y 0 k = 0 := fun k => by rw [lcsTable]
      refine ⟨?_, ?_, ?_, ?_⟩
      · have := take_append_getD Y (j + 1) (by omega) hj
        simp only [Nat.add_sub_cancel] at this
        simpa [applyPatch] using this
      · simp [countOp, hz]
      · simp [countOp, hz]
      · simp [countOp, hz]
    | i + 1, 0 =>
      rw [backtrack]
      rw [if_neg (by omega), if_neg (by omega), if_pos (by omega)]
      simp only [Nat.add_sub_cancel]
      have ihr := ih i 0 (by omega) (by omega) (by omega)
      rw [applyPatch_append, countOp_append, countOp_append, countOp_append]
      rw [ihr.1, ihr.2.1, ihr.2.2.1, ihr.2.2.2]
      have hz : ∀ k, lcsTable X Y k 0 = 0 := fun k => by
        match k with
        | 0 => rw [lcsTable]
        | k + 1 => rw [lcsTable]
      refine ⟨by simp [applyPatch], ?_, ?_, ?_⟩
      · simp [countOp, hz]
      · simp [countOp, hz]
      · simp [countOp, hz]
    | i + 1, j + 1 =>
      have hsub : (i + 1 : Nat) - 1 = i := by omega
      have hsub2 : (j + 1 : Nat) - 1 = j := by omega
      by_cases heq : X.getD i "" = Y.getD j ""
      · rw [backtrack, if_pos (by refine ⟨by omega, by omega, ?_⟩; rw [hsub, hsub2]; exact heq)]
        simp only [Nat.add_sub_cancel]
        have ihr := ih i j (by omega) (by omega) (by omega)
        rw [applyPatch_append, countOp_append, countOp_append, countOp_append]
        rw [ihr.1, ihr.2.1, ihr.2.2.1, ihr.2.2.2]
        have hdp : lcsTable X Y (i + 1) (j + 1) = lcsTable X Y i j + 1 := by
          rw [lcsTable, if_pos heq]
        have hle := lcsTable_le X Y (i + j) i j le_rfl
        refine ⟨?_, ?_, ?_, ?_⟩
        · rw [heq]
          have := take_append_getD Y (j + 1) (by omega) hj
          simp only [Nat.add_sub_cancel] at this
          simpa [applyPatch] using this
        · simp [countOp, hdp]
        · simp [countOp, hdp]
        · simp [countOp, hdp]
      · have hdpmax : lcsTable X Y (i + 1) (j + 1) =
            max (lcsTable X Y i (j + 1)) (lcsTable X Y (i + 1) j) := by
          rw [lcsTable, if_neg heq]
        by_cases hc2 : lcsTable X Y (i + 1) j ≥ lcsTable X Y i (j + 1)
        · rw [backtrack]
          rw [if_neg (by rw [hsub, hsub2]; rintro ⟨_, _, hcontra⟩; exact heq hcontra)]
          rw [if_pos (by refine ⟨by omega, Or.inr ?_⟩; rw [hsub, hsub2]; exact hc2)]
          simp only [Nat.add_sub_cancel]
          have ihr := ih (i + 1) j (by omega) (by omega) (by omega)
          rw [applyPatch_append, countOp_append, countOp_append, countOp_append]
          rw [ihr.1, ihr.2.1, ihr.2.2.1, ihr.2.2.2]
          have hdp : lcsTable X Y (i + 1) (j + 1) = lcsTable X Y (i + 1) j := by
            rw [hdpmax]; omega
          have hle := lcsTable_le X Y (i + 1 + j) (i + 1) j le_rfl
          refine ⟨?_, ?_, ?_, ?_⟩
          · have := take_append_getD Y (j + 1) (by omega) hj
            simp only [Nat.add_sub_cancel] at this
            simpa [applyPatch] using this
          · simp [countOp, hdp]
          · simp [countOp, hdp]
          · simp [countOp, hdp]
            omega
        · rw [backtrack]
          rw [if_neg (by rw [hsub, hsub2]; rintro ⟨_, _, hcontra⟩; exact heq hcontra)]
          rw [if_neg (by
            rw [hsub, hsub2]
            rintro ⟨hj0, h0 | hge⟩
            exacts [absurd h0 (by omega), hc2 hge])]
          rw [if_pos (by omega)]
          simp only [Nat.add_sub_cancel]
          have ihr := ih i (j + 1) (by omega) (by omega) (by omega)
          rw [applyPatch_append, countOp_append, countOp_append, countOp_append]
          rw [ihr.1, ihr.2.1, ihr.2.2.1, ihr.2.2.2]
          have hdp : lcsTable X Y (i + 1) (j + 1) = lcsTable X Y i (j + 1) := by
            rw [hdpmax]; omega
          have hle := lcsTable_le X Y (i + (j + 1)) i (j + 1) le_rfl
          refine ⟨?_, ?_, ?_, ?_⟩
          · simp [applyPatch]
          · simp [countOp, hdp]
          · simp [countOp, hdp]
            omega
          · simp [countOp, hdp]

theorem backtrack_self_all_equal (X : List String) :
    ∀ (fuel i : Nat), i + i ≤ fuel →
      ((backtrack X X (lcsTable X X) fuel i i).all fun p => decide (p.1 = DiffOp.equal)) = true := by
  intro fuel
  induction fuel with
  | zero =>
    intro i h
    obtain rfl : i = 0 := by omega
    rw [backtrack]
    rfl
  | succ fuel ih =>
    intro i h
    match i with
    | 0 =>
      rw [backtrack]
      rw [if_neg (by omega), if_neg (by omega), if_neg (by omega)]
      rfl
    | i + 1 =>
      rw [backtrack, if_pos ⟨by omega, by omega, rfl⟩]
      rw [List.all_append]
      have := ih i (by omega)
      simp only [Nat.add_sub_cancel] at this ⊢
      rw [this]
      rfl

/-- Claim C6: the line differ is correct for the computed LCS table.
On identical inputs every emitted operation is `equal`; on arbitrary
inputs, applying the output as a patch (keep `equal` lines, take `insert`
lines, drop `delete` lines, in order) reconstructs the actual line
sequence exactly; the number of `equal` entries equals the DP table's LCS
value, so the number of non-equal entries is exactly
`|X| + |Y| - 2·LCS(X,Y)`, the minimum achievable for that table. -/
theorem computeDiff_lcs_correct (X Y : List String) :
    ((computeDiff X X).all fun p => decide (p.1 = DiffOp.equal)) = true ∧
    applyPatch (computeDiff X Y) = Y ∧
    countOp .equal (computeDiff X Y) = lcsTable X Y X.length Y.length ∧
    countOp .delete (computeDiff X Y) + countOp .insert (computeDiff X Y) =
      (X.length + Y.length) - 2 * lcsTable X Y X.length Y.length := by
  have hs := backtrack_spec X Y (X.length + Y.length) X.length Y.length le_rfl le_rfl le_rfl
  have hle := lcsTable_le X Y (X.length + Y.length) X.length Y.length le_rfl
  refine ⟨?_, ?_, ?_, ?_⟩
  · exact backtrack_self_all_equal X (X.length + X.length) X.length le_rfl
  · rw [computeDiff, hs.1, List.take_length]
  · exact hs.2.1
  · rw [computeDiff, hs.2.2.1, hs.2.2.2]
    omega

/-! ## Claim C3 -/

theorem compare_obj_step (f g : List (String × JSONValue)) (path : String) (cfg : Config)
    (h : cfg.isFieldIgnored path = false) :
    compare (.obj f) (.obj g) path cfg =
      objFirstPass f g path cfg ++ objSecondPass f g path cfg := by
  rw [compare, h, if_neg (by simp)]
  · show compareObjects f (JSONValue.obj g) path cfg = _
    rw [compareObjects]
  · simp

theorem compare_arr_step (l al : List JSONValue) (path : String) (cfg : Config)
    (h : cfg.isFieldIgnored path = false) :
    compare (.arr l) (.arr al) path cfg = compareArrays l (.arr al) path cfg := by
  rw [compare, h, if_neg (by simp)]
  simp

theorem compare_str_step (s t : String) (path : String) (cfg : Config)
    (h : cfg.isFieldIgnored path = false) :
    compare (.str s) (.str t) path cfg =
      (if s ≠ t then [⟨path, .str s, .str t, .changed⟩] else []) := by
  rw [compare, h, if_neg (by simp)]

theorem maskElems_sublist : ∀ (acts : List JSONValue) (used : List Bool),
    (maskElems acts used).Sublist acts := by
  intro acts
  induction acts with
  | nil => intro used; rw [maskElems]
  | cons a rest ih =>
    intro used
    match used with
    | [] =>
      rw [maskElems]
      exact List.Sublist.cons₂ a (ih [])
    | u :: urest =>
      rw [maskElems]
      by_cases hu : u = true
      · rw [if_pos hu]
        exact List.Sublist.cons a (ih urest)
      · rw [if_neg hu]
        exact List.Sublist.cons₂ a (ih urest)

theorem maskElems_replicate_false : ∀ (acts : List JSONValue),
    maskElems acts (List.replicate acts.length false) = acts := by
  intro acts
  induction acts with
  | nil => rw [maskElems]
  | cons a rest ih =>
    rw [List.length_cons, List.replicate_succ, maskElems, if_neg (by simp)]
    rw [ih]

theorem findUnused_none (p : JSONValue → Bool) :
    ∀ (acts : List JSONValue) (used : List Bool),
      findUnused p acts used = none →
      ∀ y ∈ maskElems acts used, p y = false := by
  intro acts
  induction acts with
  | nil => intro used _ y hy; rw [maskElems] at hy; cases hy
  | cons a rest ih =>
    intro used h y hy
    match used with
    | [] =>
      rw [findUnused] at h
      by_cases hp : p a = true
      · rw [if_pos hp] at h; cases h
      · rw [if_neg hp] at h
        rw [maskElems] at hy
        rcases List.mem_cons.1 hy with rfl | hmem
        · simpa using hp
        · exact ih [] (by simpa using h) y hmem
    | u :: urest =>
      rw [findUnused] at h
      by_cases hc : (!u && p a) = true
      · rw [if_pos hc] at h; cases h
      · rw [if_neg hc] at h
        rw [maskElems] at hy
        by_cases hu : u = true
        · rw [if_pos hu] at hy
          exact ih urest (by simpa using h) y hy
        · rw [if_neg hu] at hy
          rcases List.mem_cons.1 hy with rfl | hmem
          · have : u = false := by simpa using hu
            subst this
            simpa using hc
          · exact ih urest (by simpa using h) y hmem

theorem findUnused_some (p : JSONValue → Bool) :
    ∀ (acts : List JSONValue) (used : List Bool) (j : Nat),
      used.length = acts.length →
      findUnused p acts used = some j →
      ∃ l₁ a l₂, maskElems acts used = l₁ ++ a :: l₂ ∧ p a = true ∧
        maskElems acts (used.set j true) = l₁ ++ l₂ := by
  intro acts
  induction acts with
  | nil => intro used j _ h; rw [findUnused] at h; cases h
  | cons a rest ih =>
    intro used j hlen h
    match used with
    | [] => simp at hlen
    | u :: urest =>
      have hlen2 : urest.length = rest.length := by simpa using hlen
      rw [findUnused] at h
      by_cases hc : (!u && p a) = true
      · rw [if_pos hc] at h
        obtain rfl : j = 0 := by simpa using h.symm
        rw [Bool.and_eq_true] at hc
        obtain ⟨hnu, hp⟩ := hc
        have hu : u = false := by simpa using hnu
        subst hu
        refine ⟨[], a, maskElems rest urest, ?_, hp, ?_⟩
        · rw [maskElems]; simp
        · rw [List.set]
          rw [maskElems]
          simp
      · rw [if_neg hc] at h
        match hj : findUnused p rest urest with
        | none => rw [hj] at h; cases h
        | some j' =>
          rw [hj] at h
          obtain rfl : j = j' + 1 := by simpa using h.symm
          obtain ⟨l₁, b, l₂, hm1, hpb, hm2⟩ := ih urest j' hlen2 hj
          by_cases hu : u = true
          · subst hu
            refine ⟨l₁, b, l₂, ?_, hpb, ?_⟩
            · rw [maskElems, if_pos rfl]; exact hm1
            · rw [List.set, maskElems, if_pos rfl]; exact hm2
          · have hu' : u = false := by simpa using hu
            subst hu'
            have hpa : p a = false := by simpa using hc
            refine ⟨a :: l₁, b, l₂, ?_, hpb, ?_⟩
            · rw [maskElems, if_neg (by simp)]
              rw [hm1]
              rfl
            · rw [List.set, maskElems, if_neg (by simp)]
              rw [hm2]
              rfl

theorem greedyLoop_no_unmatched (path : String) (cfg : Config) :
    ∀ (exps : List JSONValue) (i : Nat) (acts : List JSONValue) (used : List Bool),
      used.length = acts.length →
      (maskElems acts used).Perm exps →
      (∀ x ∈ exps, ∀ y ∈ acts, ((compare x y path cfg).isEmpty = true ↔ x = y)) →
      (greedyLoop exps i acts used path cfg).2 = [] := by
  intro exps
  induction exps with
  | nil => intro i acts used _ _ _; rw [greedyLoop]
  | cons exp rest ih =>
    intro i acts used hlen hperm hmatch
    rw [greedyLoop]
    match hfind : findUnused (fun act => (compare exp act path cfg).isEmpty) acts used with
    | none =>
      exfalso
      have hmem : exp ∈ maskElems acts used := hperm.mem_iff.2 (List.mem_cons_self _ _)
      have hfalse := findUnused_none _ acts used hfind exp hmem
      have hacts : exp ∈ acts := (maskElems_sublist acts used).subset hmem
      have := (hmatch exp (List.mem_cons_self _ _) exp hacts).2 rfl
      rw [this] at hfalse
      cases hfalse
    | some j =>
      obtain ⟨l₁, a, l₂, hm1, hpa, hm2⟩ :=
        findUnused_some _ acts used j hlen hfind
      have hamem : a ∈ acts := by
        apply (maskElems_sublist acts used).subset
        rw [hm1]
        exact List.mem_append.2 (Or.inr (List.mem_cons_self _ _))
      have haexp : exp = a := (hmatch exp (List.mem_cons_self _ _) a hamem).1 hpa
      subst haexp
      have hmaskperm : (maskElems acts used).Perm (exp :: (l₁ ++ l₂)) := by
        rw [hm1]
        exact List.perm_middle
      have hperm2 : (maskElems acts (used.set j true)).Perm rest := by
        rw [hm2]
        exact (hmaskperm.symm.trans hperm).cons_inv
      exact ih (i + 1) acts (used.set j true) (by simpa using hlen) hperm2
        fun x hx y hy => hmatch x (List.mem_cons_of_mem _ hx) y hy

/-- Claim C3: comparing the object `{tags: A}` against `{tags: p(A)}` with
the global `IgnoreArrayOrder` option yields no differences, for every
permutation `p(A)` of an array `A` whose elements are compared
pairwise-unique (the recursive comparison at the array's path distinguishes
exactly the syntactically equal elements, which holds for matcher-free
arrays with no duplicate elements). -/
theorem compare_tags_permutation (A Ap : List JSONValue)
    (hperm : Ap.Perm A)
    (huniq : ∀ x ∈ A, ∀ y ∈ Ap,
      ((compare x y "$.tags" ignoreOrderConfig).isEmpty = true ↔ x = y)) :
    compare (.obj [("tags", .arr A)]) (.obj [("tags", .arr Ap)]) "$"
      ignoreOrderConfig = [] := by
  rw [compare_obj_step _ _ _ _ (by decide)]
  have hsecond : objSecondPass [("tags", .arr A)] [("tags", .arr Ap)] "$"
      ignoreOrderConfig = [] := by
    simp [objSecondPass, lookupField, Config.isFieldIgnored, ignoreOrderConfig]
  rw [hsecond, List.append_nil]
  rw [objFirstPass, objFirstPass]
  have hpath : "$" ++ "." ++ "tags" = "$.tags" := rfl
  rw [hpath]
  have hig2 : ignoreOrderConfig.isFieldIgnored "$.tags" = false := by decide
  rw [hig2]
  simp only [Bool.false_eq_true, if_false, List.append_nil]
  have hlook : lookupField [("tags", .arr Ap)] "tags" = some (.arr Ap) := by
    rw [lookupField]
    simp
  rw [show isIgnoreMatcherValue (.arr A) = false from rfl]
  simp only [Bool.false_eq_true, if_false]
  rw [hlook]
  show compare (JSONValue.arr A) (JSONValue.arr Ap) "$.tags" ignoreOrderConfig = []
  rw [compare_arr_step _ _ _ _ hig2, compareArrays]
  have hshould : ignoreOrderConfig.shouldIgnoreArrayOrder "$.tags" = true := by decide
  rw [hshould]
  simp only [if_true]
  rw [compareArraysUnordered]
  have hlength : A.length = Ap.length := hperm.length_eq.symm
  rw [if_neg (by omega)]
  have hr2 : (greedyLoop A 0 Ap (List.replicate Ap.length false) "$.tags"
      ignoreOrderConfig).2 = [] := by
    apply greedyLoop_no_unmatched
    · simp
    · rw [maskElems_replicate_false]
      exact hperm
    · exact huniq
  simp [hr2]

/-- Witness for C3: the scenario `{tags:["a","b","c"]}` against
`{tags:["c","a","b"]}` with `IgnoreArrayOrder`. -/
theorem compare_tags_permutation_witness :
    ([JSONValue.str "c", JSONValue.str "a", JSONValue.str "b"].Perm
      [JSONValue.str "a", JSONValue.str "b", JSONValue.str "c"]) ∧
    compare
      (.obj [("tags", .arr [JSONValue.str "a", JSONValue.str "b", JSONValue.str "c"])])
      (.obj [("tags", .arr [JSONValue.str "c", JSONValue.str "a", JSONValue.str "b"])])
      "$" ignoreOrderConfig = [] := by
  have hperm : ([JSONValue.str "c", JSONValue.str "a", JSONValue.str "b"].Perm
      [JSONValue.str "a", JSONValue.str "b", JSONValue.str "c"]) := by
    have h1 : ([JSONValue.str "c", JSONValue.str "a", JSONValue.str "b"].Perm
        [JSONValue.str "a", JSONValue.str "c", JSONValue.str "b"]) :=
      List.Perm.swap _ _ _
    have h2 : ([JSONValue.str "c", JSONValue.str "b"].Perm
        [JSONValue.str "b", JSONValue.str "c"]) := List.Perm.swap _ _ _
    exact h1.trans (List.Perm.cons _ h2)
  refine ⟨hperm, compare_tags_permutation _ _ hperm ?_⟩
  intro x hx y hy
  fin_cases hx <;> fin_cases hy <;>
    rw [compare_str_step _ _ _ _ (by decide)] <;> simp +decide

/-! ## Claim C9 -/

theorem exists_error_of_isOk_false {e : Except String Matcher}
    (h : e.isOk = false) : ∃ msg, e = .error msg := by
  match e with
  | .ok _ => simp [Except.isOk, Except.toBool] at h
  | .error msg => exact ⟨msg, rfl⟩

theorem replacePlaceholdersList_error (eng : RegexEngine) (tbl : List (String × String))
    (l : List JSONValue)
    (hIH : ∀ v ∈ l, hasBadValueLeaf eng v tbl = true →
      ∃ e, replacePlaceholders eng v tbl = .error e)
    (hbad : hasBadValueLeafList eng l tbl = true) :
    ∃ e, replacePlaceholdersList eng l tbl = .error e := by
  induction l with
  | nil => rw [hasBadValueLeafList] at hbad; cases hbad
  | cons v rest ih =>
    rw [hasBadValueLeafList, Bool.or_eq_true] at hbad
    rcases hbad with hv | hrest
    · obtain ⟨e, he⟩ := hIH v (List.mem_cons_self _ _) hv
      refine ⟨e, ?_⟩
      rw [replacePlaceholdersList, he]
    · match hv2 : replacePlaceholders eng v tbl with
      | .error e =>
        refine ⟨e, ?_⟩
        rw [replacePlaceholdersList, hv2]
      | .ok v2 =>
        obtain ⟨e, he⟩ := ih (fun x hx => hIH x (List.mem_cons_of_mem _ hx)) hrest
        refine ⟨e, ?_⟩
        rw [replacePlaceholdersList, hv2, he]

theorem replacePlaceholdersFields_error (eng : RegexEngine) (tbl : List (String × String))
    (f : List (String × JSONValue))
    (hIH : ∀ kv ∈ f, hasBadValueLeaf eng kv.2 tbl = true →
      ∃ e, replacePlaceholders eng kv.2 tbl = .error e)
    (hbad : hasBadValueLeafFields eng f tbl = true) :
    ∃ e, replacePlaceholdersFields eng f tbl = .error e := by
  induction f with
  | nil => rw [hasBadValueLeafFields] at hbad; cases hbad
  | cons kv rest ih =>
    rw [hasBadValueLeafFields, Bool.or_eq_true] at hbad
    rcases hbad with hv | hrest
    · obtain ⟨e, he⟩ := hIH kv (List.mem_cons_self _ _) hv
      refine ⟨e, ?_⟩
      rw [replacePlaceholdersFields, he]
    · match hv2 : replacePlaceholders eng kv.2 tbl with
      | .error e =>
        refine ⟨e, ?_⟩
        rw [replacePlaceholdersFields, hv2]
      | .ok v2 =>
        obtain ⟨e, he⟩ := ih (fun x hx => hIH x (List.mem_cons_of_mem _ hx)) hrest
        refine ⟨e, ?_⟩
        rw [replacePlaceholdersFields, hv2, he]

theorem replacePlaceholders_error_of_bad (eng : RegexEngine) (tbl : List (String × String)) :
    ∀ (n : Nat) (data : JSONValue), sizeOf data ≤ n →
      hasBadValueLeaf eng data tbl = true →
      ∃ e, replacePlaceholders eng data tbl = .error e := by
  intro n
  induction n with
  | zero =>
    intro data hsz _
    exact absurd hsz (by cases data <;> simp)
  | succ n ih =>
    intro data hsz hbad
    cases data with
    | null => simp [hasBadValueLeaf] at hbad
    | bool b => simp [hasBadValueLeaf] at hbad
    | num x => simp [hasBadValueLeaf] at hbad
    | intv k => simp [hasBadValueLeaf] at hbad
    | matcher m => simp [hasBadValueLeaf] at hbad
    | str s =>
      rw [hasBadValueLeaf, Bool.and_eq_true] at hbad
      obtain ⟨hpre, hrest⟩ := hbad
      simp only [replacePlaceholders, hpre, if_true]
      match hlook : lookupStr tbl s with
      | none => simp only [hlook]; exact ⟨_, rfl⟩
      | some expr =>
        rw [hlook] at hrest
        simp only at hrest
        have hnotok : (parseMatcher eng expr).isOk = false := by
          simpa using hrest
        obtain ⟨msg, hmsg⟩ := exists_error_of_isOk_false hnotok
        simp only [hlook, hmsg]
        exact ⟨_, rfl⟩
    | arr l =>
      simp only [hasBadValueLeaf] at hbad
      have hIH : ∀ v ∈ l, hasBadValueLeaf eng v tbl = true →
          ∃ e, replacePlaceholders eng v tbl = .error e := by
        intro v hv hb
        have h1 := List.sizeOf_lt_of_mem hv
        have h2 : sizeOf (JSONValue.arr l) = 1 + sizeOf l := by simp
        exact ih v (by omega) hb
      obtain ⟨e, he⟩ := replacePlaceholdersList_error eng tbl l hIH hbad
      refine ⟨e, ?_⟩
      simp only [replacePlaceholders, he]
    | obj f =>
      simp only [hasBadValueLeaf] at hbad
      have hIH : ∀ kv ∈ f, hasBadValueLeaf eng kv.2 tbl = true →
          ∃ e, replacePlaceholders eng kv.2 tbl = .error e := by
        intro kv hkv hb
        have h1 := List.sizeOf_lt_of_mem hkv
        have h2 : sizeOf (JSONValue.obj f) = 1 + sizeOf f := by simp
        have h3 : sizeOf kv.2 < sizeOf kv := by
          obtain ⟨a, b⟩ := kv
          simp only [Prod.mk.sizeOf_spec]
          omega
        exact ih kv.2 (by omega) hb
      obtain ⟨e, he⟩ := replacePlaceholdersFields_error eng tbl f hIH hbad
      refine ⟨e, ?_⟩
      simp only [replacePlaceholders, he]

/-- Counterexample to C9 as stated: the document text
`[brace]"[brace][brace]bogus[brace][brace]": 1[brace]` — an object whose
KEY is the template expression `bogus` — contains a `[brace][brace]...`
expression that is not a recognized matcher form (its recorded expression
is `bogus`, which `parseMatcher` rejects), yet `ParseExpectedString`
succeeds and returns a parsed document: placeholder replacement walks only
object values, never keys. -/
theorem parseExpected_unknown_in_key_not_detected :
    (processTemplate "\x7b\"\x7b\x7bbogus\x7d\x7d\": 1\x7d").2 =
      [("__TESTASTIC_MATCHER_0__", "bogus")] ∧
    (parseMatcher trivialRegexEngine "bogus").isOk = false ∧
    (ParseExpectedString trivialRegexEngine "\x7b\"\x7b\x7bbogus\x7d\x7d\": 1\x7d").isOk
      = true := by
  refine ⟨by decide, by decide, by decide⟩

/-- Claim C9 (amended): an expected-document text containing an
unrecognized `[brace][brace]...[brace][brace]` expression aborts parsing
with an error — and hence no comparison runs — whenever the expression's
placeholder ends up in a value position of the parsed document (a string
leaf under object values and array elements); an unrecognized expression
whose placeholder lands in an object key is not detected. -/
theorem parseExpected_bad_value_expression_errors (eng : RegexEngine) (content : String)
    (data : JSONValue)
    (hparse : jsonUnmarshal (processTemplate content).1 = .ok data)
    (hbad : hasBadValueLeaf eng data (processTemplate content).2 = true) :
    (ParseExpectedString eng content).isOk = false := by
  rw [ParseExpectedString]
  simp only [hparse]
  obtain ⟨e, he⟩ := replacePlaceholders_error_of_bad eng (processTemplate content).2
    (sizeOf data) data le_rfl hbad
  rw [he]
  rfl

/-- Witness for the amended C9 at the concrete text
`[brace]"a": [brace][brace]bogus[brace][brace][brace]`. -/
theorem parseExpected_bad_value_expression_errors_witness :
    jsonUnmarshal (processTemplate "\x7b\"a\": \x7b\x7bbogus\x7d\x7d\x7d").1 =
      .ok (.obj [("a", .str "__TESTASTIC_MATCHER_0__")]) ∧
    hasBadValueLeaf trivialRegexEngine (.obj [("a", .str "__TESTASTIC_MATCHER_0__")])
      (processTemplate "\x7b\"a\": \x7b\x7bbogus\x7d\x7d\x7d").2 = true ∧
    (ParseExpectedString trivialRegexEngine "\x7b\"a\": \x7b\x7bbogus\x7d\x7d\x7d").isOk
      = false := by
  refine ⟨rfl, by decide, ?_⟩
  exact parseExpected_bad_value_expression_errors trivialRegexEngine _ _ rfl (by decide)

/-! ## Claim C5 -/

/-- Claim C5: for the HTML expected document
`<div class="btn btn-[brace][brace]oneOf "primary" "secondary"[brace][brace]">X</div>`
against an actual `<div class="btn btn-danger">X</div>`, the template scan
produces the sentinel table, the class attribute value resolves to the
embedded-partial template `[lit "btn btn-", hole (oneOf [primary
secondary])]`, and the node comparison yields exactly one difference, of
kind `matcherFailed`, for that attribute. -/
theorem compareHTML_embedded_oneOf :
    (processHTMLTemplate
        "<div class=\"btn btn-\x7b\x7boneOf \"primary\" \"secondary\"\x7d\x7d\">X</div>").2 =
      [("__TESTASTIC_HTML_MATCHER_0__", "oneOf \"primary\" \"secondary\"")] ∧
    resolveHTMLMatcherWithTemplates trivialRegexEngine "btn btn-__TESTASTIC_HTML_MATCHER_0__"
        [("__TESTASTIC_HTML_MATCHER_0__", "oneOf \"primary\" \"secondary\"")] =
      .template ⟨[.lit "btn btn-", .hole (.oneOf ["primary", "secondary"])]⟩ ∧
    compareHTMLNodes
        (.mk .element "div"
          [("class", .template ⟨[.lit "btn btn-", .hole (.oneOf ["primary", "secondary"])]⟩)]
          [.mk .text "" [] [] (.str "X") "div (text)"] .null "div")
        (.mk .element "div" [("class", .str "btn btn-danger")]
          [.mk .text "" [] [] (.str "X") "div (text)"] .null "div")
        "div" defaultHTMLConfig =
      [⟨"div @class", some "btn btn-\x7b\x7boneOf [primary secondary]\x7d\x7d",
        some "btn btn-danger", .matcherFailed⟩] := by
  refine ⟨by decide, rfl, ?_⟩
  simp only [compareHTMLNodes, compareHTMLChildren, compareChildrenOrdered,
    compareHTMLAttributes, htmlAttrFirstPass, htmlAttrSecondPass, filterSignificantChildren,
    textMatcherShortcut, HTMLNode.typ, HTMLNode.Tag, HTMLNode.Attributes, HTMLNode.Children,
    HTMLNode.Text, defaultHTMLConfig, HTMLConfig.isElementIgnored,
    HTMLConfig.shouldIgnoreChildOrder, HTMLConfig.isAttributeIgnored, isIgnoreMatcherHTML,
    lookupAttr, getString, getTextContent, TemplateString.Match, TemplateString.display,
    addedTailHTML, buildChildPath, normalizeWhitespace]
  simp +decide
  rw [compareChildrenOrdered.eq_3, compareHTMLNodes, compareChildrenOrdered.eq_1]
  simp only [textMatcherShortcut, HTMLNode.typ, HTMLNode.Tag, HTMLNode.Text,
    HTMLConfig.isElementIgnored, getTextContent, normalizeWhitespace, addedTailHTML,
    buildChildPath]
  simp +decide

/-! ## Claim C10 -/

theorem dropWhile_append_ne_nil (c : Char) (h : isGoWhitespace c = false) :
    ∀ l : List Char, (l ++ [c]).dropWhile isGoWhitespace ≠ [] := by
  intro l
  induction l with
  | nil => simp [List.dropWhile_cons, h]
  | cons a t ih =>
    by_cases ha : isGoWhitespace a = true
    · simpa [List.dropWhile_cons, ha] using ih
    · simp only [Bool.not_eq_true] at ha
      simp [List.dropWhile_cons, ha]

/-- A string whose first character is not whitespace does not trim to
empty. -/
theorem goTrimSpace_ne_empty (s : String) (c : Char) (t : List Char)
    (hd : s.data = c :: t) (h : isGoWhitespace c = false) : goTrimSpace s ≠ "" := by
  intro hc
  have h3 : ((s.data.dropWhile isGoWhitespace).reverse.dropWhile isGoWhitespace).reverse
      = [] := congrArg String.data hc
  rw [List.reverse_eq_nil_iff] at h3
  rw [hd, List.dropWhile_cons, h] at h3
  simp only [Bool.false_eq_true, if_false] at h3
  rw [List.reverse_cons] at h3
  exact dropWhile_append_ne_nil c h t.reverse h3

/-- Every matcher description starts with a brace, hence never trims to
empty. -/
theorem goTrimSpace_describe_ne (m : Matcher) : goTrimSpace m.describe ≠ "" := by
  cases m <;> exact goTrimSpace_ne_empty _ '\x7b' _ rfl (by decide)

/-- The restore loop only produces strings and matchers. -/
theorem resolveHTMLLoop_shape (eng : RegexEngine) :
    ∀ (tbl : List (String × String)) (v : String),
      (∃ s, resolveHTMLLoop eng tbl v = .str s) ∨
      (∃ m, resolveHTMLLoop eng tbl v = .matcher m) := by
  intro tbl
  induction tbl with
  | nil => exact fun v => .inl ⟨v, rfl⟩
  | cons kv rest ih =>
    intro v
    obtain ⟨ph, expr⟩ := kv
    simp only [resolveHTMLLoop]
    split
    · split
      · exact .inr ⟨_, rfl⟩
      · exact ih _
    · exact ih v

/-- `resolveHTMLMatcherInValue` only produces strings and matchers. -/
theorem resolveHTML_shape (eng : RegexEngine) (v : String)
    (tblOpt : Option (List (String × String))) :
    (∃ s, resolveHTMLMatcherInValue eng v tblOpt = .str s) ∨
    (∃ m, resolveHTMLMatcherInValue eng v tblOpt = .matcher m) := by
  cases tblOpt with
  | none => exact .inl ⟨v, rfl⟩
  | some tbl =>
    simp only [resolveHTMLMatcherInValue]
    split
    · exact .inr ⟨_, rfl⟩
    · exact resolveHTMLLoop_shape eng tbl v

/-- The conversion invariant, by strong induction on node size: every tree
produced by the conversion functions has only significant text nodes. -/
theorem convertAux (eng : RegexEngine) (matchers : Option (List (String × String))) :
    ∀ k : Nat,
      (∀ n : GoHTMLNode, sizeOf n ≤ k → ∀ path r,
          convertToHTMLNode eng matchers n path = some r →
          allTextSignificant r = true) ∧
      (∀ c : GoHTMLNode, sizeOf c ≤ k → ∀ path counts r,
          (convertChildToHTMLNode eng matchers c path counts).1 = some r →
          allTextSignificant r = true) ∧
      (∀ l : List GoHTMLNode, sizeOf l ≤ k → ∀ path counts,
          allTextSigList (convertChildren eng matchers l path counts) = true) ∧
      (∀ l : List GoHTMLNode, sizeOf l ≤ k →
          allTextSigList (convertAllList eng matchers l) = true) := by
  intro k
  induction k with
  | zero =>
    refine ⟨fun n hn => ?_, fun c hc => ?_, fun l hl => ?_, fun l hl => ?_⟩
    · cases n with
      | mk t d a ch => simp only [GoHTMLNode.mk.sizeOf_spec] at hn; omega
    · cases c with
      | mk t d a ch => simp only [GoHTMLNode.mk.sizeOf_spec] at hc; omega
    · cases l with
      | nil => simp only [List.nil.sizeOf_spec] at hl; omega
      | cons a t => simp only [List.cons.sizeOf_spec] at hl; omega
    · cases l with
      | nil => simp only [List.nil.sizeOf_spec] at hl; omega
      | cons a t => simp only [List.cons.sizeOf_spec] at hl; omega
  | succ k ih =>
    obtain ⟨ihA, ihB, ihC, ihD⟩ := ih
    have hA : ∀ n : GoHTMLNode, sizeOf n ≤ k + 1 → ∀ path r,
        convertToHTMLNode eng matchers n path = some r →
        allTextSignificant r = true := by
      intro n hn path r hconv
      cases n with
      | mk t data attr children =>
        have hch : sizeOf children ≤ k := by
          simp only [GoHTMLNode.mk.sizeOf_spec] at hn; omega
        cases t with
        | element =>
          simp only [convertToHTMLNode, Option.some.injEq] at hconv
          subst hconv
          simp only [allTextSignificant, Bool.and_eq_true]
          exact ⟨by simp [textNotWSOnly, HTMLNode.typ], ihC _ hch _ _⟩
        | text =>
          rcases resolveHTML_shape eng data matchers with ⟨s, hs⟩ | ⟨m, hm⟩
          · simp only [convertToHTMLNode, hs] at hconv
            by_cases hws : goTrimSpace s = ""
            · simp [hws] at hconv
            · have hbe : (goTrimSpace s == "") = false := by simp [hws]
              simp only [hbe, Bool.false_eq_true, if_false, Option.some.injEq] at hconv
              subst hconv
              simp only [allTextSignificant, Bool.and_eq_true]
              constructor
              · simp [textNotWSOnly, HTMLNode.typ, getTextContent, HTMLNode.Text, hws]
              · simp [allTextSigList]
          · simp only [convertToHTMLNode, hm, Option.some.injEq] at hconv
            subst hconv
            simp only [allTextSignificant, Bool.and_eq_true]
            refine ⟨?_, by simp [allTextSigList]⟩
            have hd := goTrimSpace_describe_ne m
            simp [textNotWSOnly, HTMLNode.typ, getTextContent, HTMLNode.Text, hd]
        | comment =>
          simp only [convertToHTMLNode, Option.some.injEq] at hconv
          subst hconv
          simp [allTextSignificant, allTextSigList, textNotWSOnly, HTMLNode.typ]
        | doctype =>
          simp only [convertToHTMLNode, Option.some.injEq] at hconv
          subst hconv
          simp [allTextSignificant, allTextSigList, textNotWSOnly, HTMLNode.typ]
        | document =>
          cases hscan : docScanDecision children with
          | none =>
            simp only [convertToHTMLNode, hscan, Option.some.injEq] at hconv
            subst hconv
            simp only [allTextSignificant, Bool.and_eq_true]
            exact ⟨by simp [textNotWSOnly, HTMLNode.typ], ihD _ hch⟩
          | some d =>
            cases d with
            | inl c =>
              simp only [convertToHTMLNode, hscan] at hconv
              have hc1 : sizeOf c.1 ≤ k := by
                have := List.sizeOf_lt_of_mem c.2
                omega
              exact ihA _ hc1 _ _ hconv
            | inr u =>
              simp only [convertToHTMLNode, hscan, Option.some.injEq] at hconv
              subst hconv
              simp only [allTextSignificant, Bool.and_eq_true]
              exact ⟨by simp [textNotWSOnly, HTMLNode.typ], ihD _ hch⟩
        | other =>
          simp only [convertToHTMLNode] at hconv
          exact Option.noConfusion hconv
    have hB : ∀ c : GoHTMLNode, sizeOf c ≤ k + 1 → ∀ path counts r,
        (convertChildToHTMLNode eng matchers c path counts).1 = some r →
        allTextSignificant r = true := by
      intro c hc path counts r hconv
      cases c with
      | mk t data attr children =>
        cases t
        case element =>
          have hch : sizeOf children ≤ k := by
            simp only [GoHTMLNode.mk.sizeOf_spec] at hc; omega
          simp only [convertChildToHTMLNode, Option.some.injEq] at hconv
          subst hconv
          simp only [allTextSignificant, Bool.and_eq_true]
          exact ⟨by simp [textNotWSOnly, HTMLNode.typ], ihC _ hch _ _⟩
        all_goals
          simp only [convertChildToHTMLNode] at hconv
          exact hA _ hc _ _ hconv
    have hC : ∀ l : List GoHTMLNode, sizeOf l ≤ k + 1 → ∀ path counts,
        allTextSigList (convertChildren eng matchers l path counts) = true := by
      intro l hl path counts
      cases l with
      | nil => simp [convertChildren, allTextSigList]
      | cons c rest =>
        have hcr : sizeOf c ≤ k ∧ sizeOf rest ≤ k := by
          simp only [List.cons.sizeOf_spec] at hl
          constructor <;> omega
        simp only [convertChildren]
        cases hr : (convertChildToHTMLNode eng matchers c path counts).1 with
        | some child =>
          simp only [allTextSigList, Bool.and_eq_true]
          exact ⟨hB _ (Nat.le_succ_of_le hcr.1) _ _ _ hr, ihC _ hcr.2 _ _⟩
        | none => exact ihC _ hcr.2 _ _
    have hD : ∀ l : List GoHTMLNode, sizeOf l ≤ k + 1 →
        allTextSigList (convertAllList eng matchers l) = true := by
      intro l hl
      cases l with
      | nil => simp [convertAllList, allTextSigList]
      | cons c rest =>
        have hcr : sizeOf c ≤ k + 1 ∧ sizeOf rest ≤ k := by
          simp only [List.cons.sizeOf_spec] at hl
          constructor <;> omega
        simp only [convertAllList]
        cases hr : convertToHTMLNode eng matchers c "" with
        | some child =>
          simp only [allTextSigList, Bool.and_eq_true]
          exact ⟨hA _ hcr.1 _ _ hr, ihD _ hcr.2⟩
        | none => exact ihD _ hcr.2
    exact ⟨hA, hB, hC, hD⟩

/-- Claim C10: every tree produced by `convertToHTMLNode` has only
significant text nodes (whitespace-only text nodes are dropped
unconditionally at conversion time), and on node lists whose text nodes
are all significant `filterSignificantChildren` does not depend on
`PreserveWhitespace`, so the flag can never surface a whitespace-only text
difference between the two sides. -/
theorem convert_no_ws_text :
    (∀ (eng : RegexEngine) (matchers : Option (List (String × String)))
        (n : GoHTMLNode) (path : String) (r : HTMLNode),
        convertToHTMLNode eng matchers n path = some r →
        allTextSignificant r = true) ∧
    (∀ (nodes : List HTMLNode) (ic pw1 pw2 o : Bool) (op ie ia ap : List String)
        (u : Bool),
        allTextSigList nodes = true →
        filterSignificantChildren nodes ⟨ic, pw1, o, op, ie, ia, ap, u⟩ =
          filterSignificantChildren nodes ⟨ic, pw2, o, op, ie, ia, ap, u⟩) := by
  constructor
  · intro eng matchers n path r hconv
    exact (convertAux eng matchers (sizeOf n)).1 n le_rfl path r hconv
  · intro nodes ic pw1 pw2 o op ie ia ap u hsig
    induction nodes with
    | nil => rfl
    | cons a t ih =>
      simp only [allTextSigList, Bool.and_eq_true] at hsig
      have ha : textNotWSOnly a = true := by
        cases a with
        | mk ty tag attrs ch txt p =>
          have h1 := hsig.1
          simp only [allTextSignificant, Bool.and_eq_true] at h1
          exact h1.1
      have hkey : (decide (a.typ = HTMLNodeType.text) && !pw1 &&
          (goTrimSpace (getTextContent a) == "")) =
          (decide (a.typ = HTMLNodeType.text) && !pw2 &&
          (goTrimSpace (getTextContent a) == "")) := by
        by_cases h1 : a.typ = HTMLNodeType.text
        · have h2 : goTrimSpace (getTextContent a) ≠ "" := by
            simp only [textNotWSOnly, h1] at ha
            simpa using ha
          have h3 : (goTrimSpace (getTextContent a) == "") = false := by
            simp [h2]
          simp [h3]
        · simp [h1]
      have ih2 := ih hsig.2
      simp only [filterSignificantChildren, List.filter_cons,
        HTMLConfig.isElementIgnored] at ih2 ⊢
      rw [hkey, ih2]

/-- Witness for C10 at a one-text-node input. -/
theorem convert_no_ws_text_witness :
    allTextSignificant (HTMLNode.mk .text "" [] [] (.str "hi") "p (text)") = true ∧
    filterSignificantChildren [HTMLNode.mk .text "" [] [] (.str "hi") "p (text)"]
        ⟨false, false, false, [], [], [], [], false⟩ =
      filterSignificantChildren [HTMLNode.mk .text "" [] [] (.str "hi") "p (text)"]
        ⟨false, true, false, [], [], [], [], false⟩ := by
  constructor
  · exact (convert_no_ws_text).1 trivialRegexEngine none (.mk .text "hi" [] []) "p" _
      (by simp only [convertToHTMLNode, resolveHTMLMatcherInValue]; simp +decide)
  · exact (convert_no_ws_text).2 [HTMLNode.mk .text "" [] [] (.str "hi") "p (text)"]
      false false true false [] [] [] [] false (by decide)

end Testastic
